import Mathlib

/-!
Verification of the minato cache coordinator (`minato/minato.py`,
`minato/cache.py`, `minato/util.py`, `minato/filesystems/http.py`).

The development shallowly embeds the code that the claims touch:

* the persistent cache entry (`CachedFile` in `cache.py`) and the slice of
  the on-disk state relevant to one URL (metadata file, payload at
  `local_path`, extraction tree at `extraction_path`) as the structure `FS`;
* the cache-store operations `save` / `update` / `delete` / `is_expired` /
  `new` / `by_url` / `by_uid` / `exists` from `cache.py`;
* the remote-resolution core of `Minato.cached_path` (`minato.py` lines
  163-259) as a deterministic interpreter `cachedPathCore` over an
  environment `Env` that supplies the effectful results (clock, fresh uid,
  `get_version`, backend `download`, archive extraction); the interpreter
  also counts backend `download` invocations;
* the `!`-member preprocessing branch of `cached_path` (lines 146-161) as
  `cachedPathBang` over an oracle for the recursive resolution, recording
  the argument record of every recursive call;
* `xopen` (`util.py`), `extract_archive_file` (`util.py`),
  `HttpFileSystem.get_version` (`filesystems/http.py`) and
  `Minato.available_update`.

Machine integers do not occur; wall-clock instants are embedded as `Int`
seconds and Python's `timedelta.days` as floor division by 86400.
-/

deriving instance DecidableEq for Except

namespace Minato

/-- Error taxonomy: `FileNotFoundError`, the `minato.exceptions` kinds, the
`ValueError` / `OSError` raises in `util.py` and `filesystems/http.py`, and
user interruption (`SystemExit` / `KeyboardInterrupt`). -/
inductive MErr where
  | fileNotFound (path : String)
  | cacheNotFound
  | cacheAlreadyExists
  | invalidCacheStatus
  | valueError
  | ioError
  | interrupted
deriving DecidableEq, Repr

/-- `CacheStatus` from `cache.py`. -/
inductive CacheStatus where
  | pending
  | downloading
  | extracting
  | completed
  | failed
  | deleted
deriving DecidableEq, Repr

/-- `CachedFile` from `cache.py`. Paths are strings; instants are `Int`
seconds. -/
structure CachedFile where
  uid : String
  url : String
  localPath : String
  createdAt : Int
  updatedAt : Int
  expireDays : Int
  extractionPath : Option String
  status : CacheStatus
  version : Option String
  autoUpdate : Bool
deriving DecidableEq, Repr

/-- The payload stored at `local_path`. The only property of its bytes the
coordinator inspects is `is_archive_file(local_path)` (a regular file whose
content is zip or tar), recorded here as `isArchive`. -/
structure Payload where
  isArchive : Bool
deriving DecidableEq, Repr

/-- The slice of `cache_root` belonging to one URL's entry: the `<uid>.json`
metadata file (`meta`), the payload at `local_path` (`payload`, `none` when
the path does not exist), and whether the extraction tree at
`extraction_path` exists. -/
structure FS where
  meta : Option CachedFile
  payload : Option Payload
  extractionExists : Bool
deriving DecidableEq, Repr

/-- Store defaults handed to `Cache.__init__` from the configuration. -/
structure Cfg where
  cacheRoot : String
  defaultExpireDays : Int
  defaultAutoUpdate : Bool
deriving DecidableEq, Repr

/-- Per-call effect results: the clock, the fresh uid minted by
`Cache._generate_uid`, the successive results of `get_version`, the result
of the backend `download`, and the result of `extract_archive_file`. -/
structure Env where
  now : Int
  freshUid : String
  getVersion : Nat → Except MErr (Option String)
  downloadResult : Except MErr Payload
  extractResult : Except MErr Unit

namespace Cache

/-- `Cache.save`: overwrites the metadata file with the record as given
(`cache.py` lines 171-174). It does not touch `updated_at`. -/
def save (s : FS) (item : CachedFile) : FS :=
  { s with meta := some item }

/-- `Cache.update`: errors when the metadata file is missing, otherwise
refreshes `updated_at` to now and saves (`cache.py` lines 183-188). Returns
the mutated in-memory record together with the new state. -/
def update (now : Int) (s : FS) (item : CachedFile) : Except MErr (CachedFile × FS) :=
  match s.meta with
  | none => .error .cacheNotFound
  | some _ =>
    let item' := { item with updatedAt := now }
    .ok (item', save s item')

/-- `Cache.delete`: removes payload, extraction output, metadata file and
lock file, tolerating missing components (`cache.py` lines 219-229). -/
def delete (_s : FS) : FS :=
  { meta := none, payload := none, extractionExists := false }

/-- `Cache.is_expired` (`cache.py` lines 231-236): never expired when
`expire_days < 0`; otherwise expired when `(now - updated_at).days` is at
least `expire_days`, with Python's `timedelta.days` being floor division of
the elapsed seconds by 86400. -/
def isExpired (now : Int) (item : CachedFile) : Bool :=
  if item.expireDays < 0 then false
  else decide (item.expireDays ≤ (now - item.updatedAt).fdiv 86400)

/-- `Cache.new` (`cache.py` lines 156-167): a fresh in-memory entry with a
minted uid, `local_path = cache_root/uid`, both instants set to now, store
defaults for `expire_days` / `auto_update`, status `PENDING`. -/
def new (cfg : Cfg) (env : Env) (url : String) : CachedFile :=
  { uid := env.freshUid
    url := url
    localPath := cfg.cacheRoot ++ "/" ++ env.freshUid
    createdAt := env.now
    updatedAt := env.now
    expireDays := cfg.defaultExpireDays
    extractionPath := none
    status := .pending
    version := none
    autoUpdate := cfg.defaultAutoUpdate }

/-- `Cache.by_url` on the single-URL slice: the entry is found when the
metadata file exists and records the URL (`cache.py` lines 198-216). -/
def byUrl (s : FS) (url : String) : Except MErr CachedFile :=
  match s.meta with
  | some m => if m.url = url then .ok m else .error .cacheNotFound
  | none => .error .cacheNotFound

/-- `Cache.by_uid` (`cache.py` lines 190-196). -/
def byUid (s : FS) (uid : String) : Except MErr CachedFile :=
  match s.meta with
  | some m => if m.uid = uid then .ok m else .error .cacheNotFound
  | none => .error .cacheNotFound

/-- `Cache.exists` for a given uid: the `<uid>.json` metadata file exists
(`cache.py` lines 169-171). -/
def existsFor (s : FS) (uid : String) : Bool :=
  match s.meta with
  | some m => m.uid = uid
  | none => false

end Cache

/-- Caller arguments of `Minato.cached_path` with the source defaults
(`minato.py` lines 137-145). -/
structure Args where
  extract : Bool := false
  autoUpdate : Option Bool := none
  expireDays : Option Int := none
  forceDownload : Bool := false
  forceExtract : Bool := false
  retry : Bool := true
deriving DecidableEq, Repr

/-- The version / retry policy (`minato.py` lines 191-198): when the entry
has `auto_update` on and records a version, compare with the backend's
current `get_version()` (which may raise) and force a download on change;
when `retry` is on and status is not `COMPLETED`, force a download.
Returns the updated `force_download` flag and how many `get_version` calls
were consumed. -/
def versionRetryPhase (env : Env) (args : Args) (m : CachedFile) :
    Except MErr (Bool × Nat) :=
  if m.autoUpdate ∧ m.version.isSome then
    match env.getVersion 0 with
    | .error e => .error e
    | .ok currentVersion =>
      let fd := if currentVersion ≠ m.version then true else args.forceDownload
      let fd := if args.retry ∧ m.status ≠ .completed then true else fd
      .ok (fd, 1)
  else
    let fd := if args.retry ∧ m.status ≠ .completed then true else args.forceDownload
    .ok (fd, 0)

/-- The download guard (`minato.py` line 202): the payload is absent at
`local_path`, or the entry is expired, or `force_download` is set. -/
def downloadNeeded (env : Env) (fd : Bool) (m : CachedFile) (s : FS) : Bool :=
  !s.payload.isSome || Cache.isExpired env.now m || fd

/-- `is_archive_file(cached_file.local_path)` over the state: the payload
exists as a regular zip/tar file. -/
def payloadIsArchive (s : FS) : Bool :=
  match s.payload with
  | some pl => pl.isArchive
  | none => false

/-- The extraction guard (`minato.py` lines 218-223): (`extract` requested
with no recorded extraction, or a fresh download with a recorded
extraction, or `force_extract`) and the payload is an archive. -/
def extractNeeded (args : Args) (downloaded : Bool) (m : CachedFile) (s : FS) : Bool :=
  ((args.extract && !m.extractionPath.isSome)
      || (downloaded && m.extractionPath.isSome)
      || args.forceExtract)
    && payloadIsArchive s

/-- Finalization (`minato.py` lines 237-239): when either stage performed
work, set status `COMPLETED` and persist via `Cache.update`. The result
carries the in-memory record, the state and the download count. -/
def finalizeStage (env : Env) (downloaded extracted : Bool) (m : CachedFile)
    (s : FS) (dls : Nat) : Except MErr Unit × CachedFile × FS × Nat :=
  if downloaded || extracted then
    match Cache.update env.now s { m with status := .completed } with
    | .error e => (.error e, { m with status := .completed }, s, dls)
    | .ok (m', s') => (.ok (), m', s', dls)
  else
    (.ok (), m, s, dls)

/-- The extraction stage (`minato.py` lines 217-235): when needed, record
`extraction_path := local_path + "-extracted"`, remove a stale tree,
persist status `EXTRACTING`, run `extract_archive_file`, then finalize. -/
def extractStage (env : Env) (args : Args) (downloaded : Bool) (m : CachedFile)
    (s : FS) (dls : Nat) : Except MErr Unit × CachedFile × FS × Nat :=
  if extractNeeded args downloaded m s then
    let m := { m with extractionPath := some (m.localPath ++ "-extracted") }
    let s := { s with extractionExists := false }
    let m := { m with status := .extracting }
    match Cache.update env.now s m with
    | .error e => (.error e, m, s, dls)
    | .ok (m, s) =>
      match env.extractResult with
      | .error e => (.error e, m, s, dls)
      | .ok _ =>
        finalizeStage env downloaded true m { s with extractionExists := true } dls
  else
    finalizeStage env downloaded false m s dls

/-- The body of the `try` block (`minato.py` lines 199-239): the download
stage (remove stale payload, persist `DOWNLOADING`, backend `download`,
record the fresh `get_version`) followed by the extraction stage and
finalization. Errors carry the in-memory record and state at the point of
failure; the last component counts backend `download` invocations. -/
def attemptBody (env : Env) (args : Args) (fd : Bool) (gvStart : Nat)
    (m : CachedFile) (s : FS) : Except MErr Unit × CachedFile × FS × Nat :=
  if downloadNeeded env fd m s then
    let s := { s with payload := none }
    let m := { m with status := .downloading }
    match Cache.update env.now s m with
    | .error e => (.error e, m, s, 0)
    | .ok (m, s) =>
      match env.downloadResult with
      | .error e => (.error e, m, s, 1)
      | .ok pl =>
        let s := { s with payload := some pl }
        match env.getVersion gvStart with
        | .error e => (.error e, m, s, 1)
        | .ok v =>
          extractStage env args true { m with version := v } s 1
  else
    extractStage env args false m s 0

/-- The `try` / `except` of `cached_path` (`minato.py` lines 199-246): a
`FileNotFoundError` from the body deletes the entry and re-raises; any
other exception persists status `FAILED` (via `Cache.update`, whose own
failure would propagate instead) and re-raises. -/
def attempt (env : Env) (args : Args) (fd : Bool) (gvStart : Nat)
    (m : CachedFile) (s : FS) : Except MErr CachedFile × FS × Nat :=
  match attemptBody env args fd gvStart m s with
  | (.ok _, m', s', n) => (.ok m', s', n)
  | (.error e, m', s', n) =>
    match e with
    | .fileNotFound _ => (.error e, Cache.delete s', n)
    | _ =>
      match Cache.update env.now s' { m' with status := .failed } with
      | .ok (_, s'') => (.error e, s'', n)
      | .error e2 => (.error e2, s', n)

/-- The return-value stage (`minato.py` lines 248-259): prefer the
extraction path when the caller asked for extraction and one is recorded,
asserting existence and status `COMPLETED`; otherwise return `local_path`
under the same assertions. -/
def returnValue (args : Args) (m : CachedFile) (s : FS) : Except MErr String :=
  if (args.extract || args.forceExtract) && m.extractionPath.isSome then
    match m.extractionPath with
    | some p =>
      if !s.extractionExists then .error (.fileNotFound p)
      else if m.status ≠ .completed then .error .invalidCacheStatus
      else .ok p
    | none => .error .invalidCacheStatus
  else
    if !s.payload.isSome then .error (.fileNotFound m.localPath)
    else if m.status ≠ .completed then .error .invalidCacheStatus
    else .ok m.localPath

/-- The under-the-lock remainder of `cached_path` once the entry has been
patched (`minato.py` lines 191-259): the version / retry policy, the
guarded download and extraction stages with their exception handler, and
the return-value stage. -/
def resolveEntry (env : Env) (args : Args) (m3 : CachedFile) (s3 : FS) :
    Except MErr String × FS × Nat :=
  match versionRetryPhase env args m3 with
  | .error e => (.error e, s3, 0)
  | .ok (fd, gvCount) =>
    match attempt env args fd gvCount m3 s3 with
    | (.error e, s4, n) => (.error e, s4, n)
    | (.ok m4, s4, n) => (returnValue args m4 s4, s4, n)

/-- The remote-resolution core of `Minato.cached_path` (`minato.py` lines
163-259): look up by URL or mint a fresh entry, add it under the lock when
absent, re-read by uid, patch `expire_days` / `auto_update` via
`Cache.save`, then hand over to `resolveEntry`. Returns the result, the
final state and the number of backend `download` invocations. -/
def cachedPathCore (cfg : Cfg) (env : Env) (args : Args) (url : String)
    (s0 : FS) : Except MErr String × FS × Nat :=
  let m0 :=
    match Cache.byUrl s0 url with
    | .ok m => m
    | .error _ => Cache.new cfg env url
  let s1 := if Cache.existsFor s0 m0.uid then s0 else Cache.save s0 m0
  match Cache.byUid s1 m0.uid with
  | .error e => (.error e, s1, 0)
  | .ok m1 =>
    let (m2, s2) :=
      match args.expireDays with
      | some d => let m := { m1 with expireDays := d }; (m, Cache.save s1 m)
      | none => (m1, s1)
    let (m3, s3) :=
      match args.autoUpdate with
      | some b => let m := { m2 with autoUpdate := b }; (m, Cache.save s2 m)
      | none => (m2, s2)
    resolveEntry env args m3 s3

/-- Well-formedness of the single-URL slice: a present metadata file
records this URL. -/
def WF (url : String) (s : FS) : Bool :=
  match s.meta with
  | none => true
  | some m => m.url == url

/-- The entry as it stands after the `expire_days` / `auto_update` patches
of `cached_path` (`minato.py` lines 183-189). -/
def patchEntry (args : Args) (m : CachedFile) : CachedFile :=
  { m with
    expireDays := args.expireDays.getD m.expireDays
    autoUpdate := args.autoUpdate.getD m.autoUpdate }

/-- The path the return-value stage picks for a given entry. -/
def expectedPath (args : Args) (m : CachedFile) : String :=
  if (args.extract || args.forceExtract) && m.extractionPath.isSome then
    m.extractionPath.getD m.localPath
  else
    m.localPath

/-- Concrete-entry builder used by witnesses and counterexamples. -/
def mkEntry (uid url localPath : String) (updatedAt expireDays : Int)
    (status : CacheStatus) (version : Option String) (autoUpdate : Bool)
    (extractionPath : Option String := none) (createdAt : Int := 0) : CachedFile :=
  { uid := uid, url := url, localPath := localPath, createdAt := createdAt,
    updatedAt := updatedAt, expireDays := expireDays,
    extractionPath := extractionPath, status := status, version := version,
    autoUpdate := autoUpdate }

/-- Concrete-environment builder used by witnesses and counterexamples:
every effect succeeds, `get_version` always yields `gv`, the download
produces a payload with the given archive flag. -/
def mkEnv (now : Int) (freshUid : String) (gv : Option String)
    (isArch : Bool) : Env :=
  { now := now, freshUid := freshUid, getVersion := fun _ => .ok gv,
    downloadResult := .ok { isArchive := isArch }, extractResult := .ok () }

/-! ### String and URL helpers (`util.py`, Python `str.rsplit` / `urllib.parse`) -/

/-- Python `s.rsplit(c, 1)` when `c` occurs: split at the LAST occurrence
of `c`; `none` when `c` does not occur. -/
def rsplitOnLast (c : Char) : List Char → Option (List Char × List Char)
  | [] => none
  | x :: xs =>
    match rsplitOnLast c xs with
    | some (a, b) => some (x :: a, b)
    | none => if x = c then some ([], xs) else none

/-- Split at the FIRST occurrence of `c` (Python `s.split(c, 1)`);
`none` when `c` does not occur. -/
def splitFirst (c : Char) : List Char → Option (List Char × List Char)
  | [] => none
  | x :: xs =>
    if x = c then some ([], xs)
    else (splitFirst c xs).map (fun p => (x :: p.1, p.2))

/-- Characters allowed in a URL scheme after the first letter (modelled
from Python `urllib.parse.scheme_chars`). -/
def isSchemeChar (c : Char) : Bool :=
  c.isAlpha || c.isDigit || c = '+' || c = '-' || c = '.'

/-- Modelled from Python `urllib.parse.urlsplit` scheme handling: when the
text before the first ':' is a nonempty ASCII-letter-led run of scheme
characters it is the (lowercased) scheme; otherwise there is no scheme. -/
def splitScheme (l : List Char) : List Char × List Char :=
  match splitFirst ':' l with
  | some (pre, rest) =>
    match pre with
    | [] => ([], l)
    | c0 :: cs =>
      if c0.isAlpha && (c0 :: cs).all isSchemeChar then
        ((c0 :: cs).map Char.toLower, rest)
      else ([], l)
  | none => ([], l)

/-- Modelled from Python `urlsplit` netloc handling: after the scheme, a
leading `//` introduces the netloc, which extends to the next `/`, `?` or
`#` (that delimiter stays in the path). -/
def dropNetloc (l : List Char) : List Char :=
  match l with
  | '/' :: '/' :: rest => rest.dropWhile (fun c => !(c = '/' || c = '?' || c = '#'))
  | _ => l

/-- Text before the first occurrence of `c`, or the whole text. -/
def takeUntilChar (c : Char) (l : List Char) : List Char :=
  match splitFirst c l with
  | some (a, _) => a
  | none => l

/-- `urlparse(s).path` modelled from Python `urllib.parse`: strip scheme
and netloc, then the `#` fragment, then the `?` query (the rare
`;parameters` split of params-using schemes is not modelled). -/
def urlPath (l : List Char) : List Char :=
  let rest := (splitScheme l).2
  let rest := dropNetloc rest
  let rest := takeUntilChar '#' rest
  takeUntilChar '?' rest

/-- `util.extract_path` (`util.py` lines 157-159): `urlparse(path).path`. -/
def extract_path (s : String) : String :=
  ⟨urlPath s.data⟩

/-- `util.is_local` for string inputs (`util.py` lines 162-170): the
parsed scheme is empty, `file` or `osfs`. -/
def is_local (s : String) : Bool :=
  let scheme : String := ⟨(splitScheme s.data).1⟩
  scheme = "" || scheme = "file" || scheme = "osfs"

/-- `pathlib`'s `/` join: an absolute right operand replaces the left, an
empty right operand is dropped, otherwise the parts are joined with `/`. -/
def pathJoin (a b : String) : String :=
  if b.data.head? = some '/' then b
  else if b = "" then a
  else a ++ "/" ++ b

/-! ### The `!`-member branch of `cached_path` (`minato.py` lines 146-161) -/

/-- What the surroundings of the bang branch provide: the recursive
`cached_path` resolution, `Path.is_dir` and `Path.exists`. -/
structure BangOracle where
  resolve : String → Args → Except MErr String
  isDir : String → Bool
  pathExists : String → Bool

/-- The argument record of the recursive `cached_path` call in the bang
branch (`minato.py` lines 148-153): only `extract=True`, `force_extract`
and `force_download` are passed; every other parameter takes its default. -/
def bangArgs (args : Args) : Args :=
  { extract := true
    forceExtract := args.forceExtract
    forceDownload := args.forceDownload }

/-- The `"!" in url_or_filename` branch of `cached_path`: split at the last
`!`, recursively resolve the archive URL (recorded in the returned call
list), require a directory, join the scheme-stripped member path, require
it to exist. `none` when the input has no `!` and resolution falls through
to the ordinary branches. -/
def cachedPathBang (o : BangOracle) (args : Args) (input : String) :
    Option (Except MErr String × List (String × Args)) :=
  match rsplitOnLast '!' input.data with
  | none => none
  | some (a, b) =>
    let remoteArchivePath : String := ⟨a⟩
    let calls := [(remoteArchivePath, bangArgs args)]
    match o.resolve remoteArchivePath (bangArgs args) with
    | .error e => some (.error e, calls)
    | .ok archivePath =>
      if !o.isDir archivePath then some (.error .valueError, calls)
      else
        let filePath := extract_path ⟨b⟩
        let localPath := pathJoin archivePath filePath
        if o.pathExists localPath then some (.ok localPath, calls)
        else some (.error (.fileNotFound localPath), calls)

/-! ### Compression-aware open (`util.xopen`, `util.py` lines 209-255) -/

/-- The three-valued `decompress` option of `xopen`. -/
inductive DecompressOption where
  | noneOpt
  | force
  | auto
deriving DecidableEq, Repr

/-- What the one-byte probes of `xopen` detect in an existing file's
content: a gzip, xz/lzma or bzip2 stream, or none of the three. -/
inductive ContentKind where
  | gzipData
  | xzData
  | bz2Data
  | plainData
deriving DecidableEq, Repr

/-- A file as `xopen` observes it: whether `Path(file).exists()`, its
content kind, and its name (for the extension checks). -/
structure XFile where
  present : Bool
  content : ContentKind
  name : String
deriving DecidableEq, Repr

/-- The kind of handle `xopen` returns. -/
inductive Handle where
  | raw
  | gzipHandle
  | xzHandle
  | bz2Handle
deriving DecidableEq, Repr

/-- `util.xopen`: `decompress="none"` opens raw; for an existing file the
content probes pick the stream type and an unrecognized content raises
`ValueError`; for a missing file the extension picks the stream type, and
otherwise `auto` opens raw while `force` raises `ValueError`. -/
def xopen (f : XFile) (decompress : DecompressOption) : Except MErr Handle :=
  if decompress = .noneOpt then .ok .raw
  else if f.present then
    match f.content with
    | .gzipData => .ok .gzipHandle
    | .xzData => .ok .xzHandle
    | .bz2Data => .ok .bz2Handle
    | .plainData => .error .valueError
  else if f.name.endsWith ".gz" then .ok .gzipHandle
  else if f.name.endsWith ".xz" || f.name.endsWith ".lzma" then .ok .xzHandle
  else if f.name.endsWith ".bz2" then .ok .bz2Handle
  else if decompress = .auto then .ok .raw
  else .error .valueError

/-! ### Archive extraction (`util.extract_archive_file`, `util.py` lines 143-154) -/

/-- A filesystem operation in the trace of `extract_archive_file`. -/
inductive ExtractOp where
  | makeTempDir (path : String)
  | extractInto (src path : String)
  | replace (src dst : String)
deriving DecidableEq, Repr

/-- The directory containing `p`: the text before the last `/`. -/
def parentDir (p : String) : String :=
  match rsplitOnLast '/' p.data with
  | some (a, _) => ⟨a⟩
  | none => ""

/-- `util.extract_archive_file`: make a temporary directory under the
system temp root (`tempfile.TemporaryDirectory()`), extract the archive
into it, then `os.replace` it onto the target path. -/
def extract_archive_file (sysTempRoot tempName : String)
    (sourcePath targetPath : String) : List ExtractOp :=
  let tempDir := sysTempRoot ++ "/" ++ tempName
  [ .makeTempDir tempDir
  , .extractInto sourcePath tempDir
  , .replace tempDir targetPath ]

/-- Whether an operation writes at the path `dst`. -/
def writesAt (dst : String) : ExtractOp → Bool
  | .makeTempDir p => p == dst
  | .extractInto _ p => p == dst
  | .replace _ d => d == dst

/-! ### HTTP `get_version` and `available_update` -/

/-- A HEAD response as `http_request_with_retry` observes it: its status
code and the `Location` / `ETag` headers. -/
structure HttpResponse where
  status : Nat
  location : Option String
  etag : Option String
deriving DecidableEq, Repr

/-- `status_codes_to_retry` (`filesystems/http.py` line 203). -/
def statusCodesToRetry (st : Nat) : Bool :=
  st == 502 || st == 503 || st == 504

/-- `status_codes_to_redirect` (`filesystems/http.py` line 204). -/
def statusCodesToRedirect (st : Nat) : Bool :=
  st == 300 || st == 301 || st == 302 || st == 303 || st == 307 || st == 308

/-- The retry loop of `http_request_with_retry` (`filesystems/http.py`
lines 195-224), over a deterministic server modelled as the response to
the k-th request. `i` is the attempt index and `fuel` the remaining
attempts (`retries - i`). A redirect status with a `Location` header
retries at the next URL (falling off the loop returns the last, redirect,
response); a redirect status without `Location` falls through to `break`
and returns that response; status 200 breaks and returns; any other
status raises `HTTPException` — either via the retry-set `continue` or
via the `raise` caught by the `except` clause, both of which retry while
attempts remain and propagate the exception (`ioError`) on the last
attempt. -/
def httpRequestLoop (responses : Nat → HttpResponse) (allowRedirects : Bool) :
    Nat → Nat → Except MErr HttpResponse
  | _, 0 => .error .ioError
  | i, fuel + 1 =>
    let r := responses i
    if allowRedirects && statusCodesToRedirect r.status then
      if r.location.isSome then
        match fuel with
        | 0 => .ok r
        | fuel2 + 1 => httpRequestLoop responses allowRedirects (i + 1) (fuel2 + 1)
      else .ok r
    else if r.status == 200 then .ok r
    else if statusCodesToRetry r.status then
      match fuel with
      | 0 => .error .ioError
      | fuel2 + 1 => httpRequestLoop responses allowRedirects (i + 1) (fuel2 + 1)
    else
      match fuel with
      | 0 => .error .ioError
      | fuel2 + 1 => httpRequestLoop responses allowRedirects (i + 1) (fuel2 + 1)

/-- `HttpFileSystem.http_head` (`filesystems/http.py` lines 169-188):
`http_request_with_retry` from attempt 0. -/
def http_head (responses : Nat → HttpResponse) (retries : Nat)
    (allowRedirects : Bool) : Except MErr HttpResponse :=
  httpRequestLoop responses allowRedirects 0 retries

/-- `HttpFileSystem.exists` (`filesystems/http.py` lines 19-21): a HEAD
with `retries=5` and `allow_redirects=True`; true iff its status is 200.
Any `HTTPException` the retry loop raises propagates. -/
def httpExists (responses : Nat → HttpResponse) : Except MErr Bool :=
  match http_head responses 5 true with
  | .error e => .error e
  | .ok r => .ok (r.status == 200)

/-- `HttpFileSystem.get_version` (`filesystems/http.py` lines 33-42):
`exists()` first (its exception propagates); `FileNotFoundError` when it
returns false; then a second HEAD (same deterministic server) whose
non-200 status raises `OSError`, returning the `ETag` header otherwise. -/
def httpGetVersion (url : String) (responses : Nat → HttpResponse) :
    Except MErr (Option String) :=
  match httpExists responses with
  | .error e => .error e
  | .ok ex =>
    if !ex then .error (.fileNotFound url)
    else
      match http_head responses 5 true with
      | .error e => .error e
      | .ok r =>
        if r.status ≠ 200 then .error .ioError
        else .ok r.etag

/-- `Minato.available_update` (`minato.py` lines 261-268): `false` for
local inputs; otherwise the entry is loaded by URL (its absence
propagates) and the result is whether the recorded version differs from
the backend's current one (whose exception propagates). -/
def availableUpdate (urlIsLocal : Bool) (entry : Except MErr CachedFile)
    (gv : Except MErr (Option String)) : Except MErr Bool :=
  if urlIsLocal then .ok false
  else
    match entry with
    | .error e => .error e
    | .ok m =>
      match gv with
      | .error e => .error e
      | .ok v => .ok (decide (m.version ≠ v))

/-! ## Helper lemmas -/

theorem rsplitOnLast_eq_none (c : Char) (l : List Char) :
    rsplitOnLast c l = none ↔ c ∉ l := by
  induction l with
  | nil => simp [rsplitOnLast]
  | cons x xs ih =>
    simp only [rsplitOnLast]
    cases hx : rsplitOnLast c xs with
    | some p =>
      rw [hx] at ih
      simp only [reduceCtorEq, false_iff, not_not] at ih
      simp [List.mem_cons, ih]
    | none =>
      have ihx : c ∉ xs := ih.mp hx
      by_cases hxc : x = c
      · simp [hxc]
      · simp [hxc, List.mem_cons, ihx, Ne.symm hxc]

theorem rsplitOnLast_sound (c : Char) (l : List Char) :
    ∀ a b, rsplitOnLast c l = some (a, b) → l = a ++ c :: b ∧ c ∉ b := by
  induction l with
  | nil => intro a b h; simp [rsplitOnLast] at h
  | cons x xs ih =>
    intro a b h
    simp only [rsplitOnLast] at h
    cases hx : rsplitOnLast c xs with
    | some p =>
      obtain ⟨a', b'⟩ := p
      rw [hx] at h
      simp only [Option.some.injEq, Prod.mk.injEq] at h
      obtain ⟨ha, hb⟩ := h
      obtain ⟨hl, hc⟩ := ih a' b' hx
      subst ha hb
      exact ⟨by simp [hl], hc⟩
    | none =>
      rw [hx] at h
      by_cases hxc : x = c
      · rw [if_pos hxc] at h
        simp only [Option.some.injEq, Prod.mk.injEq] at h
        obtain ⟨ha, hb⟩ := h
        subst ha hb
        exact ⟨by simp [hxc], (rsplitOnLast_eq_none c xs).mp hx⟩
      · rw [if_neg hxc] at h
        exact absurd h (by simp)

theorem rsplitOnLast_append (c : Char) (a b : List Char) (hb : c ∉ b) :
    rsplitOnLast c (a ++ c :: b) = some (a, b) := by
  induction a with
  | nil =>
    simp only [List.nil_append, rsplitOnLast]
    rw [(rsplitOnLast_eq_none c b).mpr hb]
    simp
  | cons x xs ih =>
    rw [List.cons_append]
    simp only [rsplitOnLast]
    rw [ih]

theorem returnValue_ok_facts (args : Args) (m : CachedFile) (s : FS) (p : String)
    (h : returnValue args m s = .ok p) :
    m.status = .completed
  ∧ (((args.extract || args.forceExtract) && m.extractionPath.isSome) = true →
      m.extractionPath = some p ∧ s.extractionExists = true)
  ∧ (((args.extract || args.forceExtract) && m.extractionPath.isSome) = false →
      p = m.localPath ∧ s.payload.isSome = true)
  ∧ p = expectedPath args m := by
  unfold returnValue at h
  by_cases hc : ((args.extract || args.forceExtract) && m.extractionPath.isSome) = true
  · rw [if_pos hc] at h
    have hc2 := hc
    rw [Bool.and_eq_true] at hc2
    obtain ⟨q, hep⟩ := Option.isSome_iff_exists.mp hc2.2
    rw [hep] at h
    by_cases hee : s.extractionExists = true
    · rw [hee] at h
      simp only [Bool.not_true, Bool.false_eq_true, if_false] at h
      by_cases hst : m.status = .completed
      · rw [if_neg (by simp [hst])] at h
        have hpq : q = p := by simpa using h
        subst hpq
        refine ⟨hst, fun _ => ⟨hep, hee⟩, fun hcf => absurd hcf (by simp [hc]), ?_⟩
        simp [expectedPath, hep, hc2.1]
      · rw [if_pos (by simp [hst])] at h
        exact absurd h (by simp)
    · simp only [Bool.not_eq_true] at hee
      rw [hee] at h
      simp only [Bool.not_false, if_true] at h
      exact absurd h (by simp)
  · simp only [Bool.not_eq_true] at hc
    rw [hc] at h
    simp only [Bool.false_eq_true, if_false] at h
    by_cases hpl : s.payload.isSome = true
    · rw [hpl] at h
      simp only [Bool.not_true, Bool.false_eq_true, if_false] at h
      by_cases hst : m.status = .completed
      · rw [if_neg (by simp [hst])] at h
        have hlp : m.localPath = p := by simpa using h
        refine ⟨hst, fun hct => absurd hct (by simp [hc]), fun _ => ⟨hlp.symm, hpl⟩, ?_⟩
        simp [expectedPath, hc, hlp.symm]
      · rw [if_pos (by simp [hst])] at h
        exact absurd h (by simp)
    · simp only [Bool.not_eq_true] at hpl
      rw [hpl] at h
      simp only [Bool.not_false, if_true] at h
      exact absurd h (by simp)

theorem finalizeStage_ok (env : Env) (d e : Bool) (m m' : CachedFile)
    (s s' : FS) (dls n : Nat)
    (hm : s.meta.isSome = true)
    (h : finalizeStage env d e m s dls = (.ok (), m', s', n)) :
    n = dls ∧ s'.payload = s.payload ∧ s'.extractionExists = s.extractionExists
  ∧ (s'.meta = some m' ∨ (m' = m ∧ s' = s))
  ∧ m'.url = m.url ∧ m'.uid = m.uid ∧ m'.localPath = m.localPath
  ∧ m'.extractionPath = m.extractionPath
  ∧ ((m' = { m with status := .completed, updatedAt := env.now }
        ∧ s' = Cache.save s m' ∧ (d || e) = true)
     ∨ (m' = m ∧ s' = s ∧ (d || e) = false)) := by
  unfold finalizeStage at h
  by_cases hde : (d || e) = true
  · rw [if_pos hde] at h
    obtain ⟨m0, hm0⟩ := Option.isSome_iff_exists.mp hm
    have hupd : Cache.update env.now s { m with status := .completed }
        = .ok ({ m with status := .completed, updatedAt := env.now },
            Cache.save s { m with status := .completed, updatedAt := env.now }) := by
      unfold Cache.update
      rw [hm0]
    rw [hupd] at h
    simp only [Prod.mk.injEq, true_and] at h
    obtain ⟨h2, h3, h4⟩ := h
    subst h2 h3 h4
    refine ⟨rfl, rfl, rfl, Or.inl rfl, rfl, rfl, rfl, rfl, Or.inl ⟨rfl, rfl, hde⟩⟩
  · simp only [Bool.not_eq_true] at hde
    rw [hde] at h
    simp only [Bool.false_eq_true, if_false, Prod.mk.injEq, true_and] at h
    obtain ⟨h2, h3, h4⟩ := h
    subst h2 h3 h4
    exact ⟨rfl, rfl, rfl, Or.inr ⟨rfl, rfl⟩, rfl, rfl, rfl, rfl, Or.inr ⟨rfl, rfl, hde⟩⟩

theorem payloadIsArchive_congr (s t : FS) (h : s.payload = t.payload) :
    payloadIsArchive s = payloadIsArchive t := by
  unfold payloadIsArchive
  rw [h]

theorem cache_update_ok (now : Int) (s : FS) (m : CachedFile)
    (h : s.meta.isSome = true) :
    Cache.update now s m
      = .ok ({ m with updatedAt := now }, Cache.save s { m with updatedAt := now }) := by
  obtain ⟨m0, hm0⟩ := Option.isSome_iff_exists.mp h
  unfold Cache.update
  rw [hm0]

theorem extractStage_ok (env : Env) (args : Args) (d : Bool) (m m' : CachedFile)
    (s s' : FS) (dls n : Nat)
    (hm : s.meta.isSome = true)
    (h : extractStage env args d m s dls = (.ok (), m', s', n)) :
    n = dls
  ∧ s'.payload = s.payload
  ∧ (s'.meta = some m' ∨ (m' = m ∧ s' = s ∧ d = false))
  ∧ m'.url = m.url ∧ m'.uid = m.uid ∧ m'.localPath = m.localPath
  ∧ (extractNeeded args d m s = true →
      m'.extractionPath = some (m.localPath ++ "-extracted")
      ∧ s'.extractionExists = true ∧ m'.status = .completed)
  ∧ (extractNeeded args d m s = false →
      m'.extractionPath = m.extractionPath
      ∧ ((m' = { m with status := .completed, updatedAt := env.now }
            ∧ s' = Cache.save s m' ∧ d = true)
         ∨ (m' = m ∧ s' = s ∧ d = false)))
  ∧ (payloadIsArchive s = true → args.extract = true →
      m'.extractionPath.isSome = true)
  ∧ (payloadIsArchive s = true → args.forceExtract = true →
      m'.extractionPath = some (m.localPath ++ "-extracted")) := by
  unfold extractStage at h
  by_cases hneed : extractNeeded args d m s = true
  · rw [if_pos hneed] at h
    simp only [] at h
    split at h
    · exact absurd h (by simp)
    · rename_i mf sf heq
      rw [cache_update_ok env.now { s with extractionExists := false } _
        (by simpa using hm)] at heq
      simp only [Except.ok.injEq, Prod.mk.injEq] at heq
      obtain ⟨hmf, hsf⟩ := heq
      subst hmf hsf
      cases hex : env.extractResult with
      | error e => rw [hex] at h; exact absurd h (by simp)
      | ok u =>
        rw [hex] at h
        have hfin := finalizeStage_ok env d true _ m' _ s' dls n
          (by simp [Cache.save]) h
        obtain ⟨hn, -, -, -, -, -, -, -, hbig⟩ := hfin
        rcases hbig with ⟨hm2, hs2, -⟩ | ⟨-, -, hfalse⟩
        · subst hm2
          subst hs2
          exact ⟨hn, rfl, Or.inl rfl, rfl, rfl, rfl,
            fun _ => ⟨rfl, rfl, rfl⟩,
            fun hcon => absurd hcon (by simp [hneed]),
            fun _ _ => rfl, fun _ _ => rfl⟩
        · exact absurd hfalse (by simp)
  · rw [if_neg hneed] at h
    have hfin := finalizeStage_ok env d false _ m' _ s' dls n hm h
    obtain ⟨hn, -, -, -, -, -, -, -, hbig⟩ := hfin
    have hisSome : payloadIsArchive s = true → args.extract = true →
        m.extractionPath.isSome = true := by
      intro harch hx
      have hneed' : extractNeeded args d m s = false := by simpa using hneed
      simp [extractNeeded, harch, hx] at hneed'
      exact hneed'.1.1
    have hnofe : payloadIsArchive s = true → args.forceExtract = true → False := by
      intro harch hfe
      have hneed' : extractNeeded args d m s = false := by simpa using hneed
      simp [extractNeeded, harch, hfe] at hneed'
    rcases hbig with ⟨hm2, hs2, hde⟩ | ⟨hm2, hs2, hde⟩
    · subst hm2
      subst hs2
      exact ⟨hn, rfl, Or.inl rfl, rfl, rfl, rfl,
        fun hcon => absurd hcon hneed,
        fun _ => ⟨rfl, Or.inl ⟨rfl, rfl, by simpa using hde⟩⟩,
        fun harch hx => hisSome harch hx,
        fun harch hfe => absurd (hnofe harch hfe) (by simp)⟩
    · subst hm2
      subst hs2
      exact ⟨hn, rfl, Or.inr ⟨rfl, rfl, by simpa using hde⟩, rfl, rfl, rfl,
        fun hcon => absurd hcon hneed,
        fun _ => ⟨rfl, Or.inr ⟨rfl, rfl, by simpa using hde⟩⟩,
        fun harch hx => hisSome harch hx,
        fun harch hfe => absurd (hnofe harch hfe) (by simp)⟩

theorem attemptBody_ok_facts (env : Env) (args : Args) (fd : Bool) (gv : Nat)
    (m m' : CachedFile) (s s' : FS) (n : Nat)
    (hm : s.meta = some m)
    (h : attemptBody env args fd gv m s = (.ok (), m', s', n)) :
    s'.meta = some m'
  ∧ s'.payload.isSome = true
  ∧ m'.url = m.url ∧ m'.uid = m.uid ∧ m'.localPath = m.localPath
  ∧ (payloadIsArchive s' = true → args.extract = true →
      m'.extractionPath.isSome = true)
  ∧ (payloadIsArchive s' = true → args.forceExtract = true →
      m'.extractionPath = some (m'.localPath ++ "-extracted"))
  ∧ (downloadNeeded env fd m s = false → n = 0) := by
  unfold attemptBody at h
  by_cases hdn : downloadNeeded env fd m s = true
  · rw [if_pos hdn] at h
    simp only [] at h
    split at h
    · exact absurd h (by simp)
    · rename_i mf sf heq
      rw [cache_update_ok env.now { s with payload := none } _
        (by simp [hm])] at heq
      simp only [Except.ok.injEq, Prod.mk.injEq] at heq
      obtain ⟨hmf, hsf⟩ := heq
      subst hmf hsf
      cases hdl : env.downloadResult with
      | error e => rw [hdl] at h; exact absurd h (by simp)
      | ok pl =>
        rw [hdl] at h
        cases hgv : env.getVersion gv with
        | error e => rw [hgv] at h; exact absurd h (by simp)
        | ok v =>
          rw [hgv] at h
          have hex := extractStage_ok env args true _ m' _ s' 1 n
            (by simp [Cache.save]) h
          obtain ⟨hn, hpl, hmeta, hurl, huid, hlp, -, -, hes, hgs⟩ := hex
          have hmeta2 : s'.meta = some m' := by
            rcases hmeta with h1 | ⟨-, -, hcon⟩
            · exact h1
            · exact absurd hcon (by simp)
          have hplS : s'.payload = some pl := by simpa [Cache.save] using hpl
          refine ⟨hmeta2, by simp [hplS], by simpa using hurl,
            by simpa using huid, by simpa using hlp, ?_, ?_,
            fun hcon => absurd hcon (by simp [hdn])⟩
          · intro ha hx
            exact hes (by simpa [Cache.save, payloadIsArchive, hplS] using ha) hx
          · intro ha hfe
            have h2 := hgs (by simpa [Cache.save, payloadIsArchive, hplS] using ha) hfe
            rw [hlp]
            exact h2
  · rw [if_neg hdn] at h
    have hex := extractStage_ok env args false m m' s s' 0 n
      (by simp [hm]) h
    obtain ⟨hn, hpl, hmeta, hurl, huid, hlp, -, -, hes, hgs⟩ := hex
    have hmeta2 : s'.meta = some m' := by
      rcases hmeta with h1 | ⟨h1, h2, -⟩
      · exact h1
      · rw [h2, hm, h1]
    have hpls : s.payload.isSome = true := by
      have hdn' : downloadNeeded env fd m s = false := by simpa using hdn
      simp [downloadNeeded] at hdn'
      simp [hdn'.1]
    refine ⟨hmeta2, by rw [hpl]; exact hpls, hurl, huid, hlp, ?_, ?_, fun _ => hn⟩
    · intro ha hx
      exact hes (by rwa [payloadIsArchive_congr _ _ hpl] at ha) hx
    · intro ha hfe
      rw [hgs (by rwa [payloadIsArchive_congr _ _ hpl] at ha) hfe, hlp]

theorem attempt_ok_facts (env : Env) (args : Args) (fd : Bool) (gv : Nat)
    (m m' : CachedFile) (s s' : FS) (n : Nat)
    (hm : s.meta = some m)
    (h : attempt env args fd gv m s = (.ok m', s', n)) :
    s'.meta = some m'
  ∧ s'.payload.isSome = true
  ∧ m'.url = m.url ∧ m'.uid = m.uid ∧ m'.localPath = m.localPath
  ∧ (payloadIsArchive s' = true → args.extract = true →
      m'.extractionPath.isSome = true)
  ∧ (payloadIsArchive s' = true → args.forceExtract = true →
      m'.extractionPath = some (m'.localPath ++ "-extracted"))
  ∧ (downloadNeeded env fd m s = false → n = 0) := by
  unfold attempt at h
  cases hb : attemptBody env args fd gv m s with
  | mk r rest =>
    obtain ⟨m2, s2, n2⟩ := rest
    rw [hb] at h
    cases r with
    | ok u =>
      cases u
      simp only [Prod.mk.injEq, Except.ok.injEq] at h
      obtain ⟨h1, h2, h3⟩ := h
      subst h1 h2 h3
      exact attemptBody_ok_facts env args fd gv m _ s _ _ hm hb
    | error e =>
      exfalso
      simp only [] at h
      cases e
      all_goals (try simp only [] at h)
      case fileNotFound p => exact absurd h (by simp)
      all_goals (split at h <;> exact absurd h (by simp))

theorem cache_byUrl_ok (s : FS) (url : String) (m : CachedFile)
    (h : Cache.byUrl s url = .ok m) : s.meta = some m ∧ m.url = url := by
  unfold Cache.byUrl at h
  cases hsm : s.meta with
  | none => rw [hsm] at h; exact absurd h (by simp)
  | some m0 =>
    rw [hsm] at h
    simp only [] at h
    by_cases hu : m0.url = url
    · rw [if_pos hu] at h
      simp only [Except.ok.injEq] at h
      subst h
      exact ⟨rfl, hu⟩
    · rw [if_neg hu] at h
      exact absurd h (by simp)

theorem resolveEntry_ok_facts (env : Env) (args : Args) (m3 : CachedFile)
    (s3 : FS) (p : String) (s' : FS) (n : Nat)
    (hm : s3.meta = some m3)
    (h : resolveEntry env args m3 s3 = (.ok p, s', n)) :
    ∃ m', s'.meta = some m'
      ∧ m'.url = m3.url
      ∧ m'.status = .completed
      ∧ s'.payload.isSome = true
      ∧ (payloadIsArchive s' = true → args.extract = true →
          m'.extractionPath.isSome = true)
      ∧ (payloadIsArchive s' = true → args.forceExtract = true →
          m'.extractionPath = some (m'.localPath ++ "-extracted"))
      ∧ (((args.extract || args.forceExtract) && m'.extractionPath.isSome) = true →
          m'.extractionPath = some p ∧ s'.extractionExists = true)
      ∧ (((args.extract || args.forceExtract) && m'.extractionPath.isSome) = false →
          p = m'.localPath)
      ∧ p = expectedPath args m' := by
  unfold resolveEntry at h
  cases hvr : versionRetryPhase env args m3 with
  | error e => rw [hvr] at h; exact absurd h (by simp)
  | ok fdgv =>
    obtain ⟨fd, gvc⟩ := fdgv
    rw [hvr] at h
    simp only [] at h
    cases hat : attempt env args fd gvc m3 s3 with
    | mk r rest =>
      obtain ⟨s4, n4⟩ := rest
      rw [hat] at h
      cases r with
      | error e =>
        simp only [] at h
        exact absurd h (by simp)
      | ok m4 =>
        simp only [Prod.mk.injEq] at h
        obtain ⟨hrv, hs4, hn4⟩ := h
        subst hs4 hn4
        obtain ⟨hmeta, hplS, hurl, huid, hlp, hes, hgs, -⟩ :=
          attempt_ok_facts env args fd gvc m3 m4 s3 s4 n4 hm hat
        obtain ⟨hst, hext, hloc, hexp⟩ := returnValue_ok_facts args m4 s4 p hrv
        exact ⟨m4, hmeta, hurl, hst, hplS, hes, hgs,
          fun hc => hext hc, fun hc => (hloc hc).1, hexp⟩

theorem cachedPathCore_ok_good (cfg : Cfg) (env : Env) (args : Args)
    (url : String) (s0 : FS) (p : String) (s' : FS) (n : Nat)
    (hwf : WF url s0 = true)
    (h : cachedPathCore cfg env args url s0 = (.ok p, s', n)) :
    ∃ m', s'.meta = some m'
      ∧ m'.url = url
      ∧ m'.status = .completed
      ∧ s'.payload.isSome = true
      ∧ (payloadIsArchive s' = true → args.extract = true →
          m'.extractionPath.isSome = true)
      ∧ (payloadIsArchive s' = true → args.forceExtract = true →
          m'.extractionPath = some (m'.localPath ++ "-extracted"))
      ∧ (((args.extract || args.forceExtract) && m'.extractionPath.isSome) = true →
          m'.extractionPath = some p ∧ s'.extractionExists = true)
      ∧ (((args.extract || args.forceExtract) && m'.extractionPath.isSome) = false →
          p = m'.localPath)
      ∧ p = expectedPath args m' := by
  unfold cachedPathCore at h
  cases hbu : Cache.byUrl s0 url with
  | ok mA =>
    obtain ⟨hsm, hurlA⟩ := cache_byUrl_ok s0 url mA hbu
    rw [hbu] at h
    simp only [] at h
    have hex : Cache.existsFor s0 mA.uid = true := by
      unfold Cache.existsFor
      rw [hsm]
      simp
    rw [hex, if_pos rfl] at h
    have hbid : Cache.byUid s0 mA.uid = .ok mA := by
      unfold Cache.byUid
      rw [hsm]
      simp
    rw [hbid] at h
    simp only [] at h
    cases hed : args.expireDays with
    | none =>
      rw [hed] at h
      simp only [] at h
      cases hau : args.autoUpdate with
      | none =>
        rw [hau] at h
        simp only [] at h
        obtain ⟨m', h1, h2, hrest⟩ := resolveEntry_ok_facts env args mA s0 p s' n hsm h
        exact ⟨m', h1, h2.trans hurlA, hrest⟩
      | some b =>
        rw [hau] at h
        simp only [] at h
        obtain ⟨m', h1, h2, hrest⟩ := resolveEntry_ok_facts env args
          { mA with autoUpdate := b } (Cache.save s0 { mA with autoUpdate := b })
          p s' n rfl h
        exact ⟨m', h1, h2.trans hurlA, hrest⟩
    | some d =>
      rw [hed] at h
      simp only [] at h
      cases hau : args.autoUpdate with
      | none =>
        rw [hau] at h
        simp only [] at h
        obtain ⟨m', h1, h2, hrest⟩ := resolveEntry_ok_facts env args
          { mA with expireDays := d } (Cache.save s0 { mA with expireDays := d })
          p s' n rfl h
        exact ⟨m', h1, h2.trans hurlA, hrest⟩
      | some b =>
        rw [hau] at h
        simp only [] at h
        obtain ⟨m', h1, h2, hrest⟩ := resolveEntry_ok_facts env args
          { mA with expireDays := d, autoUpdate := b }
          (Cache.save (Cache.save s0 { mA with expireDays := d })
            { mA with expireDays := d, autoUpdate := b })
          p s' n rfl h
        exact ⟨m', h1, h2.trans hurlA, hrest⟩
  | error e =>
    have hnone : s0.meta = none := by
      cases hsm : s0.meta with
      | none => rfl
      | some m0 =>
        unfold WF at hwf
        rw [hsm] at hwf
        simp only [beq_iff_eq] at hwf
        have : Cache.byUrl s0 url = .ok m0 := by
          unfold Cache.byUrl
          rw [hsm]
          simp only []
          rw [if_pos hwf]
        rw [this] at hbu
        exact absurd hbu (by simp)
    rw [hbu] at h
    simp only [] at h
    have hex : Cache.existsFor s0 (Cache.new cfg env url).uid = false := by
      unfold Cache.existsFor
      rw [hnone]
    rw [hex] at h
    simp only [Bool.false_eq_true, if_false] at h
    have hbid : Cache.byUid (Cache.save s0 (Cache.new cfg env url))
        (Cache.new cfg env url).uid = .ok (Cache.new cfg env url) := by
      unfold Cache.byUid Cache.save
      simp
    rw [hbid] at h
    simp only [] at h
    cases hed : args.expireDays with
    | none =>
      rw [hed] at h
      simp only [] at h
      cases hau : args.autoUpdate with
      | none =>
        rw [hau] at h
        simp only [] at h
        obtain ⟨m', h1, h2, hrest⟩ := resolveEntry_ok_facts env args
          (Cache.new cfg env url) (Cache.save s0 (Cache.new cfg env url))
          p s' n rfl h
        exact ⟨m', h1, h2, hrest⟩
      | some b =>
        rw [hau] at h
        simp only [] at h
        obtain ⟨m', h1, h2, hrest⟩ := resolveEntry_ok_facts env args
          { Cache.new cfg env url with autoUpdate := b }
          (Cache.save (Cache.save s0 (Cache.new cfg env url))
            { Cache.new cfg env url with autoUpdate := b })
          p s' n rfl h
        exact ⟨m', h1, h2, hrest⟩
    | some d =>
      rw [hed] at h
      simp only [] at h
      cases hau : args.autoUpdate with
      | none =>
        rw [hau] at h
        simp only [] at h
        obtain ⟨m', h1, h2, hrest⟩ := resolveEntry_ok_facts env args
          { Cache.new cfg env url with expireDays := d }
          (Cache.save (Cache.save s0 (Cache.new cfg env url))
            { Cache.new cfg env url with expireDays := d })
          p s' n rfl h
        exact ⟨m', h1, h2, hrest⟩
      | some b =>
        rw [hau] at h
        simp only [] at h
        obtain ⟨m', h1, h2, hrest⟩ := resolveEntry_ok_facts env args
          { Cache.new cfg env url with expireDays := d, autoUpdate := b }
          (Cache.save (Cache.save (Cache.save s0 (Cache.new cfg env url))
              { Cache.new cfg env url with expireDays := d })
            { Cache.new cfg env url with expireDays := d, autoUpdate := b })
          p s' n rfl h
        exact ⟨m', h1, h2, hrest⟩

theorem finalizeStage_meta (env : Env) (d e : Bool) (m m' : CachedFile)
    (s s' : FS) (dls n : Nat) (r : Except MErr Unit)
    (hm : s.meta.isSome = true)
    (h : finalizeStage env d e m s dls = (r, m', s', n)) :
    s'.meta.isSome = true := by
  unfold finalizeStage at h
  by_cases hde : (d || e) = true
  · rw [if_pos hde] at h
    split at h
    · rename_i e2 heq
      rw [cache_update_ok env.now s _ hm] at heq
      exact absurd heq (by simp)
    · rename_i mf sf heq
      rw [cache_update_ok env.now s _ hm] at heq
      simp only [Except.ok.injEq, Prod.mk.injEq] at heq
      obtain ⟨-, hsf⟩ := heq
      simp only [Prod.mk.injEq] at h
      obtain ⟨-, -, hs, -⟩ := h
      rw [← hs, ← hsf]
      simp [Cache.save]
  · rw [if_neg hde] at h
    simp only [Prod.mk.injEq] at h
    obtain ⟨-, -, hs, -⟩ := h
    rw [← hs]
    exact hm

theorem extractStage_meta (env : Env) (args : Args) (d : Bool)
    (m m' : CachedFile) (s s' : FS) (dls n : Nat) (r : Except MErr Unit)
    (hm : s.meta.isSome = true)
    (h : extractStage env args d m s dls = (r, m', s', n)) :
    s'.meta.isSome = true := by
  unfold extractStage at h
  by_cases hneed : extractNeeded args d m s = true
  · rw [if_pos hneed] at h
    simp only [] at h
    split at h
    · rename_i e2 heq
      rw [cache_update_ok env.now { s with extractionExists := false } _
        (by simpa using hm)] at heq
      exact absurd heq (by simp)
    · rename_i mf sf heq
      rw [cache_update_ok env.now { s with extractionExists := false } _
        (by simpa using hm)] at heq
      simp only [Except.ok.injEq, Prod.mk.injEq] at heq
      obtain ⟨-, hsf⟩ := heq
      cases hex : env.extractResult with
      | error e2 =>
        rw [hex] at h
        simp only [Prod.mk.injEq] at h
        obtain ⟨-, -, hs, -⟩ := h
        rw [← hs, ← hsf]
        simp [Cache.save]
      | ok u =>
        rw [hex] at h
        exact finalizeStage_meta env d true _ m' _ s' dls n r
          (by rw [← hsf]; simp [Cache.save]) h
  · rw [if_neg hneed] at h
    exact finalizeStage_meta env d false m m' s s' dls n r hm h

theorem attemptBody_meta (env : Env) (args : Args) (fd : Bool) (gv : Nat)
    (m m' : CachedFile) (s s' : FS) (n : Nat) (r : Except MErr Unit)
    (hm : s.meta.isSome = true)
    (h : attemptBody env args fd gv m s = (r, m', s', n)) :
    s'.meta.isSome = true := by
  unfold attemptBody at h
  by_cases hdn : downloadNeeded env fd m s = true
  · rw [if_pos hdn] at h
    simp only [] at h
    split at h
    · rename_i e2 heq
      rw [cache_update_ok env.now { s with payload := none } _
        (by simpa using hm)] at heq
      exact absurd heq (by simp)
    · rename_i mf sf heq
      rw [cache_update_ok env.now { s with payload := none } _
        (by simpa using hm)] at heq
      simp only [Except.ok.injEq, Prod.mk.injEq] at heq
      obtain ⟨-, hsf⟩ := heq
      cases hdl : env.downloadResult with
      | error e2 =>
        rw [hdl] at h
        simp only [Prod.mk.injEq] at h
        obtain ⟨-, -, hs, -⟩ := h
        rw [← hs, ← hsf]
        simp [Cache.save]
      | ok pl =>
        rw [hdl] at h
        cases hgv : env.getVersion gv with
        | error e2 =>
          rw [hgv] at h
          simp only [Prod.mk.injEq] at h
          obtain ⟨-, -, hs, -⟩ := h
          rw [← hs, ← hsf]
          simp [Cache.save]
        | ok v =>
          rw [hgv] at h
          exact extractStage_meta env args true _ m' _ s' 1 n r
            (by rw [← hsf]; simp [Cache.save]) h
  · rw [if_neg hdn] at h
    exact extractStage_meta env args false m m' s s' 0 n r hm h

theorem extractStage_run (env : Env) (args : Args) (d : Bool)
    (m : CachedFile) (s : FS) (dls : Nat)
    (hneed : extractNeeded args d m s = true)
    (hm : s.meta.isSome = true)
    (hext : env.extractResult = .ok ()) :
    extractStage env args d m s dls
      = (.ok (),
         { m with extractionPath := some (m.localPath ++ "-extracted"),
                  status := .completed, updatedAt := env.now },
         Cache.save
           { Cache.save { s with extractionExists := false }
               { m with extractionPath := some (m.localPath ++ "-extracted"),
                        status := .extracting, updatedAt := env.now }
             with extractionExists := true }
           { m with extractionPath := some (m.localPath ++ "-extracted"),
                    status := .completed, updatedAt := env.now },
         dls) := by
  obtain ⟨m0, hm0⟩ := Option.isSome_iff_exists.mp hm
  simp [extractStage, finalizeStage, Cache.update, Cache.save, hneed, hext, hm0]

theorem extractStage_skip (env : Env) (args : Args) (d : Bool)
    (m : CachedFile) (s : FS) (dls : Nat)
    (hneed : extractNeeded args d m s = false)
    (hd : d = false) :
    extractStage env args d m s dls = (.ok (), m, s, dls) := by
  unfold extractStage
  rw [if_neg (by simp [hneed])]
  unfold finalizeStage
  rw [if_neg (by simp [hd])]

theorem attemptBody_skip_download (env : Env) (args : Args) (fd : Bool)
    (gv : Nat) (m : CachedFile) (s : FS)
    (hdn : downloadNeeded env fd m s = false) :
    attemptBody env args fd gv m s = extractStage env args false m s 0 := by
  unfold attemptBody
  rw [if_neg (by simp [hdn])]

theorem attempt_eq_of_body_ok (env : Env) (args : Args) (fd : Bool) (gv : Nat)
    (m m' : CachedFile) (s s' : FS) (n : Nat)
    (hb : attemptBody env args fd gv m s = (.ok (), m', s', n)) :
    attempt env args fd gv m s = (.ok m', s', n) := by
  unfold attempt
  rw [hb]

theorem resolveEntry_eq_of (env : Env) (args : Args) (m3 : CachedFile)
    (s3 : FS) (fd : Bool) (gvc : Nat) (m4 : CachedFile) (s4 : FS) (n4 : Nat)
    (hvr : versionRetryPhase env args m3 = .ok (fd, gvc))
    (hat : attempt env args fd gvc m3 s3 = (.ok m4, s4, n4)) :
    resolveEntry env args m3 s3 = (returnValue args m4 s4, s4, n4) := by
  unfold resolveEntry
  rw [hvr]
  simp only []
  rw [hat]

theorem versionRetryPhase_quiet (env : Env) (args : Args) (m3 : CachedFile)
    (hst : m3.status = .completed)
    (hfd : args.forceDownload = false)
    (hver : env.getVersion 0 = .ok m3.version) :
    ∃ gvc, versionRetryPhase env args m3 = .ok (false, gvc) := by
  unfold versionRetryPhase
  by_cases hau : (m3.autoUpdate = true ∧ m3.version.isSome = true)
  · refine ⟨1, ?_⟩
    rw [if_pos hau, hver]
    simp only []
    rw [if_neg (show ¬(m3.version ≠ m3.version) by simp)]
    rw [if_neg (show ¬(args.retry = true ∧ m3.status ≠ .completed) from
      fun hcon => hcon.2 hst)]
    rw [hfd]
  · refine ⟨0, ?_⟩
    rw [if_neg hau]
    simp only []
    rw [if_neg (show ¬(args.retry = true ∧ m3.status ≠ .completed) from
      fun hcon => hcon.2 hst)]
    rw [hfd]

theorem resolveEntry_fast_path (env : Env) (args : Args) (m3 : CachedFile)
    (s3 : FS)
    (hm : s3.meta = some m3) (hst : m3.status = .completed)
    (hpl : s3.payload.isSome = true)
    (hfd : args.forceDownload = false)
    (hexp : Cache.isExpired env.now m3 = false)
    (hver : env.getVersion 0 = .ok m3.version)
    (hext : env.extractResult = .ok ())
    (h9 : payloadIsArchive s3 = true → args.extract = true →
        m3.extractionPath.isSome = true)
    (h10 : payloadIsArchive s3 = true → args.forceExtract = true →
        m3.extractionPath = some (m3.localPath ++ "-extracted"))
    (h11 : ((args.extract || args.forceExtract) && m3.extractionPath.isSome)
        = true → s3.extractionExists = true) :
    (resolveEntry env args m3 s3).1 = .ok (expectedPath args m3)
  ∧ (resolveEntry env args m3 s3).2.2 = 0 := by
  obtain ⟨gvc, hvr⟩ := versionRetryPhase_quiet env args m3 hst hfd hver
  have hdn : downloadNeeded env false m3 s3 = false := by
    unfold downloadNeeded
    rw [hpl, hexp]
    rfl
  have hab := attemptBody_skip_download env args false gvc m3 s3 hdn
  by_cases harch : payloadIsArchive s3 = true
  · by_cases hfe : args.forceExtract = true
    · have hneed : extractNeeded args false m3 s3 = true := by
        simp [extractNeeded, hfe, harch]
      have hrun := extractStage_run env args false m3 s3 0 hneed
        (by simp [hm]) hext
      have hat := attempt_eq_of_body_ok env args false gvc m3 _ s3 _ 0
        (hab.trans hrun)
      have hre := resolveEntry_eq_of env args m3 s3 false gvc _ _ 0 hvr hat
      rw [hre]
      refine ⟨?_, rfl⟩
      simp [returnValue, expectedPath, hfe, Cache.save, h10 harch hfe]
    · have hfe' : args.forceExtract = false := by simpa using hfe
      by_cases hx : args.extract = true
      · have hiss := h9 harch hx
        have hneed : extractNeeded args false m3 s3 = false := by
          simp [extractNeeded, hiss, hfe']
        have hskip := extractStage_skip env args false m3 s3 0 hneed rfl
        have hat := attempt_eq_of_body_ok env args false gvc m3 _ s3 _ 0
          (hab.trans hskip)
        have hre := resolveEntry_eq_of env args m3 s3 false gvc _ _ 0 hvr hat
        rw [hre]
        refine ⟨?_, rfl⟩
        have hcond : ((args.extract || args.forceExtract)
            && m3.extractionPath.isSome) = true := by simp [hx, hiss]
        obtain ⟨q, hq⟩ := Option.isSome_iff_exists.mp hiss
        have hee := h11 hcond
        simp [returnValue, expectedPath, hcond, hq, hee, hst, hx]
      · have hx' : args.extract = false := by simpa using hx
        have hneed : extractNeeded args false m3 s3 = false := by
          simp [extractNeeded, hx', hfe']
        have hskip := extractStage_skip env args false m3 s3 0 hneed rfl
        have hat := attempt_eq_of_body_ok env args false gvc m3 _ s3 _ 0
          (hab.trans hskip)
        have hre := resolveEntry_eq_of env args m3 s3 false gvc _ _ 0 hvr hat
        rw [hre]
        refine ⟨?_, rfl⟩
        simp [returnValue, expectedPath, hx', hfe', hpl, hst]
  · have harch' : payloadIsArchive s3 = false := by simpa using harch
    have hneed : extractNeeded args false m3 s3 = false := by
      simp [extractNeeded, harch']
    have hskip := extractStage_skip env args false m3 s3 0 hneed rfl
    have hat := attempt_eq_of_body_ok env args false gvc m3 _ s3 _ 0
      (hab.trans hskip)
    have hre := resolveEntry_eq_of env args m3 s3 false gvc _ _ 0 hvr hat
    rw [hre]
    refine ⟨?_, rfl⟩
    by_cases hcond : ((args.extract || args.forceExtract)
        && m3.extractionPath.isSome) = true
    · have hiss : m3.extractionPath.isSome = true := by
        have hc2 := hcond
        rw [Bool.and_eq_true] at hc2
        exact hc2.2
      obtain ⟨q, hq⟩ := Option.isSome_iff_exists.mp hiss
      have hee := h11 hcond
      have hor : args.extract = true ∨ args.forceExtract = true := by
        have hc3 := hcond
        rw [Bool.and_eq_true] at hc3
        have := hc3.1
        rwa [Bool.or_eq_true] at this
      simp [returnValue, expectedPath, hcond, hq, hee, hst, hor]
    · have hcond' : ((args.extract || args.forceExtract)
          && m3.extractionPath.isSome) = false := by simpa using hcond
      simp [returnValue, expectedPath, hcond', hpl, hst]

theorem cachedPathCore_fast_path (cfg : Cfg) (env : Env) (args : Args)
    (url : String) (s : FS) (m : CachedFile)
    (hm : s.meta = some m) (hurl : m.url = url) (hst : m.status = .completed)
    (hpl : s.payload.isSome = true)
    (hfd : args.forceDownload = false)
    (hexp : Cache.isExpired env.now (patchEntry args m) = false)
    (hver : env.getVersion 0 = .ok m.version)
    (hext : env.extractResult = .ok ())
    (h9 : payloadIsArchive s = true → args.extract = true →
        m.extractionPath.isSome = true)
    (h10 : payloadIsArchive s = true → args.forceExtract = true →
        m.extractionPath = some (m.localPath ++ "-extracted"))
    (h11 : ((args.extract || args.forceExtract) && m.extractionPath.isSome)
        = true → s.extractionExists = true) :
    (cachedPathCore cfg env args url s).1 = .ok (expectedPath args m)
  ∧ (cachedPathCore cfg env args url s).2.2 = 0 := by
  have hbu : Cache.byUrl s url = .ok m := by
    unfold Cache.byUrl
    rw [hm]
    simp only []
    rw [if_pos hurl]
  have hexf : Cache.existsFor s m.uid = true := by
    unfold Cache.existsFor
    rw [hm]
    simp
  have hbid : Cache.byUid s m.uid = .ok m := by
    unfold Cache.byUid
    rw [hm]
    simp
  unfold cachedPathCore
  rw [hbu]
  simp only []
  rw [hexf, if_pos rfl, hbid]
  simp only []
  unfold patchEntry at hexp
  cases hed : args.expireDays with
  | none =>
    rw [hed] at hexp
    simp only [Option.getD_none] at hexp
    simp only []
    cases hau : args.autoUpdate with
    | none =>
      rw [hau] at hexp
      simp only [Option.getD_none] at hexp
      simp only []
      exact resolveEntry_fast_path env args m s hm hst hpl hfd hexp hver hext
        h9 h10 h11
    | some b =>
      rw [hau] at hexp
      simp only [Option.getD_some] at hexp
      simp only []
      exact resolveEntry_fast_path env args { m with autoUpdate := b }
        (Cache.save s { m with autoUpdate := b }) rfl hst hpl hfd hexp hver hext
        h9 h10 h11
  | some d =>
    rw [hed] at hexp
    simp only [Option.getD_some] at hexp
    simp only []
    cases hau : args.autoUpdate with
    | none =>
      rw [hau] at hexp
      simp only [Option.getD_none] at hexp
      simp only []
      exact resolveEntry_fast_path env args { m with expireDays := d }
        (Cache.save s { m with expireDays := d }) rfl hst hpl hfd hexp hver hext
        h9 h10 h11
    | some b =>
      rw [hau] at hexp
      simp only [Option.getD_some] at hexp
      simp only []
      exact resolveEntry_fast_path env args
        { m with expireDays := d, autoUpdate := b }
        (Cache.save (Cache.save s { m with expireDays := d })
          { m with expireDays := d, autoUpdate := b })
        rfl hst hpl hfd hexp hver hext h9 h10 h11

/-! ## Claims -/

/-- C1: `cached_path` is idempotent for a remote URL: after one successful
resolution, a second call with identical arguments — given
`force_download` false, the (patched) entry not expired at the second
call's clock, the backend version unchanged, and extraction (re-run only
under `force_extract`) succeeding — returns the same path and performs
zero backend download invocations. -/
theorem cached_path_idempotent (cfg : Cfg) (env1 env2 : Env) (args : Args)
    (url : String) (s0 : FS) (p : String) (s1 : FS) (n1 : Nat)
    (hwf : WF url s0 = true)
    (hfd : args.forceDownload = false)
    (h1 : cachedPathCore cfg env1 args url s0 = (.ok p, s1, n1))
    (m1 : CachedFile) (hm1 : s1.meta = some m1)
    (hexp : Cache.isExpired env2.now (patchEntry args m1) = false)
    (hver : env2.getVersion 0 = .ok m1.version)
    (hext : env2.extractResult = .ok ()) :
    (cachedPathCore cfg env2 args url s1).1 = .ok p
  ∧ (cachedPathCore cfg env2 args url s1).2.2 = 0 := by
  obtain ⟨m1', hmeta, hurl, hst, hpl, h9, h10, hext2, hloc2, hexpected⟩ :=
    cachedPathCore_ok_good cfg env1 args url s0 p s1 n1 hwf h1
  rw [hm1] at hmeta
  simp only [Option.some.injEq] at hmeta
  subst hmeta
  have h11 : ((args.extract || args.forceExtract) && m1.extractionPath.isSome)
      = true → s1.extractionExists = true := fun hc => (hext2 hc).2
  have hfp := cachedPathCore_fast_path cfg env2 args url s1 m1 hm1 hurl hst
    hpl hfd hexp hver hext h9 h10 h11
  rw [← hexpected] at hfp
  exact hfp

/-- C1 witness: a fresh HTTP-style fetch followed by a second resolution
five seconds later returns the same path with zero downloads. -/
theorem cached_path_idempotent_witness :
    (cachedPathCore
      { cacheRoot := "root", defaultExpireDays := -1, defaultAutoUpdate := true }
      (mkEnv 5 "u2" (some "v1") false) {} "http://h/f"
      { meta := some (mkEntry "u" "http://h/f" "root/u" 0 (-1) .completed
          (some "v1") true),
        payload := some { isArchive := false }, extractionExists := false }).1
      = .ok "root/u"
  ∧ (cachedPathCore
      { cacheRoot := "root", defaultExpireDays := -1, defaultAutoUpdate := true }
      (mkEnv 5 "u2" (some "v1") false) {} "http://h/f"
      { meta := some (mkEntry "u" "http://h/f" "root/u" 0 (-1) .completed
          (some "v1") true),
        payload := some { isArchive := false }, extractionExists := false }).2.2
      = 0 := by
  exact cached_path_idempotent
    { cacheRoot := "root", defaultExpireDays := -1, defaultAutoUpdate := true }
    (mkEnv 0 "u" (some "v1") false) (mkEnv 5 "u2" (some "v1") false)
    {} "http://h/f"
    { meta := none, payload := none, extractionExists := false }
    "root/u"
    { meta := some (mkEntry "u" "http://h/f" "root/u" 0 (-1) .completed
        (some "v1") true),
      payload := some { isArchive := false }, extractionExists := false }
    1 (by decide) rfl (by decide)
    (mkEntry "u" "http://h/f" "root/u" 0 (-1) .completed (some "v1") true)
    rfl (by decide) rfl rfl

/-- C2: every `cached_path` resolution that returns a path `p` leaves the
entry `COMPLETED`, with `p` existing on disk: when the caller asked for
extraction and an extraction path is recorded, `p` is the extraction path
and the extraction tree exists; otherwise `p` is `local_path` and the
payload exists. Moreover the return-value stage raises `FileNotFoundError`
when the selected path is missing and `InvalidCacheStatus` when the status
is not `COMPLETED`. -/
theorem cached_path_return_postcondition (cfg : Cfg) (env : Env) (args : Args)
    (url : String) (s0 : FS) (p : String) (s' : FS) (n : Nat)
    (hwf : WF url s0 = true)
    (h : cachedPathCore cfg env args url s0 = (.ok p, s', n))
    (m' : CachedFile) (hm' : s'.meta = some m') :
    (m'.status = .completed
      ∧ (((args.extract || args.forceExtract) && m'.extractionPath.isSome) = true →
          m'.extractionPath = some p ∧ s'.extractionExists = true)
      ∧ (((args.extract || args.forceExtract) && m'.extractionPath.isSome) = false →
          p = m'.localPath ∧ s'.payload.isSome = true))
  ∧ (∀ (m : CachedFile) (s : FS) (q : String),
      ((args.extract || args.forceExtract) && m.extractionPath.isSome) = true →
      m.extractionPath = some q →
      (s.extractionExists = false →
          returnValue args m s = .error (.fileNotFound q))
      ∧ (s.extractionExists = true → m.status ≠ .completed →
          returnValue args m s = .error .invalidCacheStatus))
  ∧ (∀ (m : CachedFile) (s : FS),
      ((args.extract || args.forceExtract) && m.extractionPath.isSome) = false →
      (s.payload.isSome = false →
          returnValue args m s = .error (.fileNotFound m.localPath))
      ∧ (s.payload.isSome = true → m.status ≠ .completed →
          returnValue args m s = .error .invalidCacheStatus)) := by
  refine ⟨?_, ?_, ?_⟩
  · obtain ⟨m2, h1, -, h3, h4, -, -, h7, h8, -⟩ :=
      cachedPathCore_ok_good cfg env args url s0 p s' n hwf h
    rw [hm'] at h1
    simp only [Option.some.injEq] at h1
    subst h1
    exact ⟨h3, fun hc => h7 hc, fun hc => ⟨h8 hc, h4⟩⟩
  · intro m s q hc hep
    constructor
    · intro hee
      unfold returnValue
      rw [if_pos hc, hep]
      simp [hee]
    · intro hee hst
      unfold returnValue
      rw [if_pos hc, hep]
      simp [hee, hst]
  · intro m s hc
    constructor
    · intro hpl
      unfold returnValue
      rw [hc]
      simp [hpl]
    · intro hpl hst
      unfold returnValue
      rw [hc]
      simp [hpl, hst]

/-- C2 witness: a fresh resolution of a plain remote file. -/
theorem cached_path_return_postcondition_witness :
    WF "http://h/f" { meta := none, payload := none, extractionExists := false }
      = true
  ∧ cachedPathCore
      { cacheRoot := "root", defaultExpireDays := -1, defaultAutoUpdate := true }
      (mkEnv 0 "u" (some "v1") false) {} "http://h/f"
      { meta := none, payload := none, extractionExists := false }
      = (.ok "root/u",
        { meta := some (mkEntry "u" "http://h/f" "root/u" 0 (-1) .completed
            (some "v1") true),
          payload := some { isArchive := false }, extractionExists := false }, 1)
  ∧ (mkEntry "u" "http://h/f" "root/u" 0 (-1) .completed (some "v1") true).status
      = .completed := by
  refine ⟨by decide, by decide, ?_⟩
  exact (cached_path_return_postcondition
    { cacheRoot := "root", defaultExpireDays := -1, defaultAutoUpdate := true }
    (mkEnv 0 "u" (some "v1") false) {} "http://h/f"
    { meta := none, payload := none, extractionExists := false }
    "root/u"
    { meta := some (mkEntry "u" "http://h/f" "root/u" 0 (-1) .completed
        (some "v1") true),
      payload := some { isArchive := false }, extractionExists := false }
    1 (by decide) (by decide)
    (mkEntry "u" "http://h/f" "root/u" 0 (-1) .completed (some "v1") true)
    rfl).1.1

/-- C3 counterexample: a `FileNotFoundError` raised inside the per-entry
lock scope but before the download/extract `try` block — here by
`get_version` during the auto-update check — neither deletes the entry nor
persists `FAILED`: the metadata survives untouched with status
`COMPLETED`. -/
theorem lock_scope_failure_counterexample :
    (cachedPathCore
      { cacheRoot := "root", defaultExpireDays := -1, defaultAutoUpdate := true }
      { now := 50, freshUid := "zz",
        getVersion := fun _ => .error (.fileNotFound "http://h/f"),
        downloadResult := .ok { isArchive := false }, extractResult := .ok () }
      {} "http://h/f"
      { meta := some (mkEntry "u1" "http://h/f" "root/u1" 0 (-1) .completed
          (some "v0") true),
        payload := some { isArchive := false }, extractionExists := false }).1
      = .error (.fileNotFound "http://h/f")
  ∧ (cachedPathCore
      { cacheRoot := "root", defaultExpireDays := -1, defaultAutoUpdate := true }
      { now := 50, freshUid := "zz",
        getVersion := fun _ => .error (.fileNotFound "http://h/f"),
        downloadResult := .ok { isArchive := false }, extractResult := .ok () }
      {} "http://h/f"
      { meta := some (mkEntry "u1" "http://h/f" "root/u1" 0 (-1) .completed
          (some "v0") true),
        payload := some { isArchive := false }, extractionExists := false }).2.1.meta
      = some (mkEntry "u1" "http://h/f" "root/u1" 0 (-1) .completed
          (some "v0") true) := by
  exact ⟨by decide, by decide⟩

/-- C3 amended: for every exception raised inside the download/extraction
`try` block of `cached_path` (the `attempt` stage), a `FileNotFoundError`
deletes the entry (payload, extraction output, metadata) and re-raises,
and any other exception persists status `FAILED` before re-raising; the
on-disk status after such a failure is never `DOWNLOADING` or
`EXTRACTING`. Exceptions raised in the lock scope before this block (for
example by `get_version` in the auto-update check) propagate without
these effects. -/
theorem attempt_failure_propagation (env : Env) (args : Args) (fd : Bool)
    (gv : Nat) (m m0 : CachedFile) (s : FS)
    (hm : s.meta = some m0)
    (e : MErr) (s' : FS) (n : Nat)
    (h : attempt env args fd gv m s = (.error e, s', n)) :
    ((∃ q, e = .fileNotFound q) → s'.meta = none ∧ s'.payload = none
        ∧ s'.extractionExists = false)
  ∧ ((∀ q, e ≠ .fileNotFound q) → ∃ mf, s'.meta = some mf ∧ mf.status = .failed)
  ∧ (∀ mf, s'.meta = some mf → mf.status ≠ .downloading ∧ mf.status ≠ .extracting) := by
  unfold attempt at h
  cases hb : attemptBody env args fd gv m s with
  | mk r rest =>
    obtain ⟨m2, s2, n2⟩ := rest
    have hs2meta : s2.meta.isSome = true :=
      attemptBody_meta env args fd gv m m2 s s2 n2 r (by simp [hm]) hb
    rw [hb] at h
    cases r with
    | ok u =>
      cases u
      simp only [Prod.mk.injEq] at h
      exact absurd h.1 (by simp)
    | error e2 =>
      simp only [] at h
      cases e2
      case fileNotFound q =>
        simp only [Prod.mk.injEq, Except.error.injEq] at h
        obtain ⟨he, hs, -⟩ := h
        subst he
        refine ⟨fun _ => ?_, fun hq => absurd rfl (hq q), fun mf hmf => ?_⟩
        · rw [← hs]
          exact ⟨rfl, rfl, rfl⟩
        · rw [← hs] at hmf
          simp [Cache.delete] at hmf
      all_goals {
        simp only [] at h
        split at h
        · rename_i mf2 sf2 heq
          rw [cache_update_ok env.now s2 _ hs2meta] at heq
          simp only [Except.ok.injEq, Prod.mk.injEq] at heq
          obtain ⟨-, hsf⟩ := heq
          simp only [Prod.mk.injEq, Except.error.injEq] at h
          obtain ⟨he, hs, -⟩ := h
          subst he
          refine ⟨fun hq => ?_, fun _ => ?_, fun mf hmf => ?_⟩
          · obtain ⟨q, hq⟩ := hq
            exact absurd hq (by simp)
          · refine ⟨{ m2 with status := .failed, updatedAt := env.now }, ?_, rfl⟩
            rw [← hs, ← hsf]
            simp [Cache.save]
          · rw [← hs, ← hsf] at hmf
            simp only [Cache.save] at hmf
            simp only [Option.some.injEq] at hmf
            rw [← hmf]
            exact ⟨by simp, by simp⟩
        · rename_i e3 heq
          rw [cache_update_ok env.now s2 _ hs2meta] at heq
          exact absurd heq (by simp)
      }

/-- C3 witness: a failing backend download leaves the concrete entry
`FAILED` on disk, not `DOWNLOADING` or `EXTRACTING`. -/
theorem attempt_failure_propagation_witness :
    attempt
      { now := 7, freshUid := "zz", getVersion := fun _ => .ok none,
        downloadResult := .error .ioError, extractResult := .ok () }
      {} true 0
      (mkEntry "u1" "http://h/f" "root/u1" 0 (-1) .pending none true)
      { meta := some (mkEntry "u1" "http://h/f" "root/u1" 0 (-1) .pending
          none true), payload := none, extractionExists := false }
      = (.error .ioError,
        { meta := some (mkEntry "u1" "http://h/f" "root/u1" 7 (-1) .failed
            none true), payload := none, extractionExists := false }, 1)
  ∧ (mkEntry "u1" "http://h/f" "root/u1" 7 (-1) .failed none true).status
      ≠ .downloading
  ∧ (mkEntry "u1" "http://h/f" "root/u1" 7 (-1) .failed none true).status
      ≠ .extracting := by
  refine ⟨by decide, ?_⟩
  exact (attempt_failure_propagation
    { now := 7, freshUid := "zz", getVersion := fun _ => .ok none,
      downloadResult := .error .ioError, extractResult := .ok () }
    {} true 0
    (mkEntry "u1" "http://h/f" "root/u1" 0 (-1) .pending none true)
    (mkEntry "u1" "http://h/f" "root/u1" 0 (-1) .pending none true)
    { meta := some (mkEntry "u1" "http://h/f" "root/u1" 0 (-1) .pending
        none true), payload := none, extractionExists := false }
    rfl .ioError
    { meta := some (mkEntry "u1" "http://h/f" "root/u1" 7 (-1) .failed
        none true), payload := none, extractionExists := false }
    1 (by decide)).2.2
    (mkEntry "u1" "http://h/f" "root/u1" 7 (-1) .failed none true) rfl

/-- C5: `is_expired(entry)` is true iff `expire_days ≥ 0` and the floor of
the elapsed whole days since `updated_at` is at least `expire_days`;
`expire_days = -1` never expires at any clock value, and `expire_days = 0`
makes the download guard of every resolution fire whenever the clock is
not behind `updated_at`. -/
theorem is_expired_spec (item : CachedFile) :
    (∀ now, Cache.isExpired now item = true ↔
      0 ≤ item.expireDays ∧ item.expireDays ≤ (now - item.updatedAt).fdiv 86400)
  ∧ (item.expireDays = -1 → ∀ now, Cache.isExpired now item = false)
  ∧ (item.expireDays = 0 → ∀ (env : Env) (fd : Bool) (s : FS),
      item.updatedAt ≤ env.now → downloadNeeded env fd item s = true) := by
  refine ⟨?_, ?_, ?_⟩
  · intro now
    unfold Cache.isExpired
    by_cases h : item.expireDays < 0
    · simp only [if_pos h, Bool.false_eq_true, false_iff]
      intro hcon
      omega
    · simp only [if_neg h, decide_eq_true_eq]
      exact ⟨fun hle => ⟨by omega, hle⟩, fun hc => hc.2⟩
  · intro h now
    unfold Cache.isExpired
    rw [if_pos (by omega)]
  · intro h env fd s hle
    have hnn : (0:Int) ≤ (env.now - item.updatedAt).fdiv 86400 :=
      Int.fdiv_nonneg (by omega) (by norm_num)
    unfold downloadNeeded Cache.isExpired
    rw [if_neg (by omega), h]
    simp [hnn]

/-- C5 witness: an entry with `expire_days = 0` written one second ago is
already expired and forces the download guard. -/
theorem is_expired_spec_witness :
    Cache.isExpired 1 (mkEntry "u" "x" "r/u" 0 0 .completed none true) = true ∧
    downloadNeeded (mkEnv 1 "z" none false) false
      (mkEntry "u" "x" "r/u" 0 0 .completed none true)
      { meta := none, payload := some { isArchive := false },
        extractionExists := false } = true := by
  refine ⟨?_, ?_⟩
  · exact ((is_expired_spec (mkEntry "u" "x" "r/u" 0 0 .completed none true)).1
      1).mpr (by constructor <;> decide)
  · exact (is_expired_spec (mkEntry "u" "x" "r/u" 0 0 .completed none true)).2.2
      rfl (mkEnv 1 "z" none false) false
      { meta := none, payload := some { isArchive := false },
        extractionExists := false }
      (by decide)

/-- C4 counterexample: the `expire_days` patch in `cached_path` writes the
metadata file through `Cache.save`, which does not refresh `updated_at`:
at clock 100, patching an entry last updated at 5 leaves the persisted
`updated_at` at 5. -/
theorem updated_at_refresh_counterexample :
    (cachedPathCore
      { cacheRoot := "root", defaultExpireDays := -1, defaultAutoUpdate := true }
      (mkEnv 100 "zz" none false)
      { expireDays := some 3 }
      "u"
      { meta := some (mkEntry "u1" "u" "root/u1" 5 (-1) .completed none false),
        payload := some { isArchive := false },
        extractionExists := false }).2.1.meta
      = some (mkEntry "u1" "u" "root/u1" 5 3 .completed none false)
  ∧ ((5:Int) ≠ 100) := by
  exact ⟨by decide, by decide⟩

/-- C4 amended: `updated_at` is refreshed by the metadata writes that go
through `Cache.update` (the status transitions and finalization of
`cached_path`); the writes that go through `Cache.save` — `add` and the
`expire_days` / `auto_update` patches of `cached_path` — persist the
record unchanged, leaving `updated_at` as it was. -/
theorem metadata_write_updated_at (now : Int) (s : FS) (m : CachedFile) :
    ((Cache.save s m).meta = some m)
  ∧ (s.meta.isSome = true →
      Cache.update now s m = .ok ({ m with updatedAt := now },
        Cache.save s { m with updatedAt := now }))
  ∧ (s.meta = none → Cache.update now s m = .error .cacheNotFound) := by
  refine ⟨rfl, ?_, ?_⟩
  · intro h
    unfold Cache.update
    cases hm : s.meta with
    | none => rw [hm] at h; simp at h
    | some m0 => rfl
  · intro h
    unfold Cache.update
    rw [h]

/-- C4 witness: a concrete `Cache.update` refreshing `updated_at`. -/
theorem metadata_write_updated_at_witness :
    ({ meta := some (mkEntry "u1" "u" "root/u1" 5 (-1) .completed none false),
       payload := none, extractionExists := false } : FS).meta.isSome = true
  ∧ Cache.update 100
      { meta := some (mkEntry "u1" "u" "root/u1" 5 (-1) .completed none false),
        payload := none, extractionExists := false }
      (mkEntry "u1" "u" "root/u1" 5 (-1) .completed none false)
      = .ok (mkEntry "u1" "u" "root/u1" 100 (-1) .completed none false,
        { meta := some (mkEntry "u1" "u" "root/u1" 100 (-1) .completed none false),
          payload := none, extractionExists := false }) := by
  refine ⟨by decide, ?_⟩
  exact (metadata_write_updated_at 100
    { meta := some (mkEntry "u1" "u" "root/u1" 5 (-1) .completed none false),
      payload := none, extractionExists := false }
    (mkEntry "u1" "u" "root/u1" 5 (-1) .completed none false)).2.1 rfl

/-- C6: for every input containing at least one `!`, `cached_path` splits
at the LAST `!` into an archive URL and a member path (the suffix holds no
further `!`), resolves the archive URL recursively with `extract=True`,
raises `ValueError` when the result is not a directory, joins the
scheme-stripped member path against the extracted root and returns it,
raising `FileNotFoundError` when the member is absent; an input with no
`!` falls through to ordinary resolution. -/
theorem bang_member_resolution (o : BangOracle) (args : Args) (input : String) :
    (('!' ∈ input.data) →
      ∃ a b, rsplitOnLast '!' input.data = some (a, b)
        ∧ a ++ '!' :: b = input.data
        ∧ '!' ∉ b
        ∧ (∀ e, o.resolve ⟨a⟩ (bangArgs args) = .error e →
            cachedPathBang o args input
              = some (.error e, [(⟨a⟩, bangArgs args)]))
        ∧ (∀ r, o.resolve ⟨a⟩ (bangArgs args) = .ok r →
            (o.isDir r = false →
              cachedPathBang o args input
                = some (.error .valueError, [(⟨a⟩, bangArgs args)]))
            ∧ (o.isDir r = true → o.pathExists (pathJoin r (extract_path ⟨b⟩)) = true →
              cachedPathBang o args input
                = some (.ok (pathJoin r (extract_path ⟨b⟩)),
                    [(⟨a⟩, bangArgs args)]))
            ∧ (o.isDir r = true → o.pathExists (pathJoin r (extract_path ⟨b⟩)) = false →
              cachedPathBang o args input
                = some (.error (.fileNotFound (pathJoin r (extract_path ⟨b⟩))),
                    [(⟨a⟩, bangArgs args)])))
        ∧ (bangArgs args).extract = true)
  ∧ ('!' ∉ input.data → cachedPathBang o args input = none) := by
  constructor
  · intro hmem
    cases hs : rsplitOnLast '!' input.data with
    | none => exact absurd ((rsplitOnLast_eq_none '!' input.data).mp hs) (by simp [hmem])
    | some p =>
      obtain ⟨a, b⟩ := p
      obtain ⟨happ, hnb⟩ := rsplitOnLast_sound '!' input.data a b hs
      refine ⟨a, b, rfl, happ.symm, hnb, ?_, ?_, rfl⟩
      · intro e hr
        simp only [cachedPathBang, hs, hr]
      · intro r hr
        refine ⟨?_, ?_, ?_⟩
        · intro hdir
          simp only [cachedPathBang, hs, hr, hdir]
          rfl
        · intro hdir hexists
          simp only [cachedPathBang, hs, hr, hdir, hexists]
          rfl
        · intro hdir hexists
          simp only [cachedPathBang, hs, hr, hdir, hexists]
          rfl
  · intro hmem
    simp only [cachedPathBang, (rsplitOnLast_eq_none '!' input.data).mpr hmem]

/-- C6 witness: splitting happens at the LAST bang and the member is
joined against the extracted root. -/
theorem bang_member_resolution_witness :
    cachedPathBang
      { resolve := fun _ _ => .ok "root/x-extracted",
        isDir := fun _ => true, pathExists := fun _ => true }
      {} "http://h/a!b.zip!y.txt"
      = some (.ok "root/x-extracted/y.txt",
          [("http://h/a!b.zip", bangArgs {})]) := by
  have h := (bang_member_resolution
    { resolve := fun _ _ => .ok "root/x-extracted",
      isDir := fun _ => true, pathExists := fun _ => true }
    {} "http://h/a!b.zip!y.txt").1 (by decide)
  obtain ⟨a, b, hs, -, -, -, hok, -⟩ := h
  have hs2 : rsplitOnLast '!' ("http://h/a!b.zip!y.txt").data
      = some (("http://h/a!b.zip").data, ("y.txt").data) := by decide
  rw [hs2] at hs
  simp only [Option.some.injEq, Prod.mk.injEq] at hs
  obtain ⟨ha, hb⟩ := hs
  subst ha
  subst hb
  exact (hok "root/x-extracted" rfl).2.1 rfl rfl

/-- C7 counterexample: an existing file whose content is none of the three
compression formats makes `xopen` with `decompress="auto"` raise
`ValueError` instead of falling back to a raw open. -/
theorem xopen_auto_fallback_counterexample :
    xopen { present := true, content := .plainData, name := "data.txt" } .auto
      = .error .valueError ∧
    xopen { present := true, content := .plainData, name := "data.txt" } .auto
      ≠ .ok .raw := by
  constructor <;> decide

/-- C7 amended: `decompress="none"` always opens raw; for an EXISTING file
of unknown compression both `auto` and `force` raise `ValueError`; the
`auto`-falls-back-to-raw behavior applies only to a missing file whose
name has no recognized compression extension, where `force` still
raises. -/
theorem xopen_decompress_spec (f : XFile) :
    (xopen f .noneOpt = .ok .raw)
  ∧ (f.present = true → f.content = .plainData →
      xopen f .auto = .error .valueError ∧ xopen f .force = .error .valueError)
  ∧ (f.present = false →
      f.name.endsWith ".gz" = false → f.name.endsWith ".xz" = false →
      f.name.endsWith ".lzma" = false → f.name.endsWith ".bz2" = false →
      xopen f .auto = .ok .raw ∧ xopen f .force = .error .valueError) := by
  refine ⟨by simp [xopen], ?_, ?_⟩
  · intro hp hc
    constructor <;> simp [xopen, hp, hc]
  · intro hp h1 h2 h3 h4
    constructor <;> simp [xopen, hp, h1, h2, h3, h4]

/-- C7 witness: concrete files exercising each amended case. -/
theorem xopen_decompress_spec_witness :
    (xopen { present := true, content := .plainData, name := "a" } .noneOpt
      = .ok .raw)
  ∧ (xopen { present := true, content := .plainData, name := "a" } .auto
      = .error .valueError)
  ∧ (xopen { present := false, content := .plainData, name := "a" } .auto
      = .ok .raw) := by
  refine ⟨(xopen_decompress_spec _).1, ?_, ?_⟩
  · exact ((xopen_decompress_spec
      { present := true, content := .plainData, name := "a" }).2.1 rfl rfl).1
  · exact ((xopen_decompress_spec
      { present := false, content := .plainData, name := "a" }).2.2 rfl
      (by decide) (by decide) (by decide) (by decide)).1

/-- C8 counterexample: `extract_archive_file` places its temporary
directory under the system temp root, not next to the target: extracting
to `/cache/u-extracted` with temp root `/tmp` creates `/tmp/tmpabc123`,
whose parent is not the target's parent. -/
theorem extract_archive_sibling_counterexample :
    extract_archive_file "/tmp" "tmpabc123" "/cache/u" "/cache/u-extracted"
      = [ .makeTempDir "/tmp/tmpabc123"
        , .extractInto "/cache/u" "/tmp/tmpabc123"
        , .replace "/tmp/tmpabc123" "/cache/u-extracted" ] ∧
    parentDir "/tmp/tmpabc123" = "/tmp" ∧
    parentDir "/cache/u-extracted" = "/cache" ∧
    parentDir "/tmp/tmpabc123" ≠ parentDir "/cache/u-extracted" := by
  refine ⟨rfl, by decide, by decide, by decide⟩

/-- C8 amended: `extract_archive_file` extracts into a temporary directory
under the SYSTEM temp root (not a sibling of the target) and then renames
it onto the target with one `os.replace`; the rename is the only operation
that writes at the target, so the target never exists partially
extracted. -/
theorem extract_archive_atomic (sysTempRoot tempName src dst : String)
    (hsep : '/' ∉ tempName.data)
    (hne : dst ≠ sysTempRoot ++ "/" ++ tempName) :
    (extract_archive_file sysTempRoot tempName src dst).filter (writesAt dst)
      = [.replace (sysTempRoot ++ "/" ++ tempName) dst]
  ∧ parentDir (sysTempRoot ++ "/" ++ tempName) = sysTempRoot := by
  constructor
  · have hbeq : (sysTempRoot ++ "/" ++ tempName == dst) = false :=
      beq_eq_false_iff_ne.mpr (Ne.symm hne)
    simp [extract_archive_file, writesAt, List.filter, hbeq]
  · unfold parentDir
    have hdata : (sysTempRoot ++ "/" ++ tempName).data
        = sysTempRoot.data ++ '/' :: tempName.data := by
      simp [String.data_append]
    rw [hdata, rsplitOnLast_append '/' _ _ hsep]

/-- C8 witness: the amended statement at the counterexample's inputs. -/
theorem extract_archive_atomic_witness :
    ('/' ∉ "tmpabc123".data)
  ∧ ("/cache/u-extracted" : String) ≠ "/tmp" ++ "/" ++ "tmpabc123"
  ∧ (extract_archive_file "/tmp" "tmpabc123" "/cache/u" "/cache/u-extracted").filter
      (writesAt "/cache/u-extracted")
      = [.replace ("/tmp" ++ "/" ++ "tmpabc123") "/cache/u-extracted"] := by
  refine ⟨by decide, by decide, ?_⟩
  exact (extract_archive_atomic "/tmp" "tmpabc123" "/cache/u" "/cache/u-extracted"
    (by decide) (by decide)).1

/-- C9: the recursive `cached_path` call of the bang branch passes only
`extract=True` and the caller's `force_download` / `force_extract`; the
caller's `auto_update`, `expire_days` and `retry` are dropped, so the
archive entry is resolved with `auto_update=None`, `expire_days=None` and
`retry=True`. -/
theorem bang_recursive_args (o : BangOracle) (args : Args) (input : String)
    (r : Except MErr String) (calls : List (String × Args))
    (h : cachedPathBang o args input = some (r, calls)) :
    ∀ u a, (u, a) ∈ calls →
      a = { extract := true, autoUpdate := none, expireDays := none,
            forceDownload := args.forceDownload,
            forceExtract := args.forceExtract, retry := true } := by
  intro u a hmem
  cases hs : rsplitOnLast '!' input.data with
  | none =>
    simp only [cachedPathBang, hs] at h
    exact absurd h (by simp)
  | some p =>
    obtain ⟨x, y⟩ := p
    simp only [cachedPathBang, hs] at h
    have hcalls : calls = [(⟨x⟩, bangArgs args)] := by
      cases hr : o.resolve ⟨x⟩ (bangArgs args) with
      | error e =>
        rw [hr] at h
        simp only [Option.some.injEq, Prod.mk.injEq] at h
        exact h.2.symm
      | ok ap =>
        rw [hr] at h
        by_cases hd : o.isDir ap = true
        · simp only [hd, Bool.not_true, Bool.false_eq_true, if_false] at h
          by_cases he : o.pathExists (pathJoin ap (extract_path ⟨y⟩)) = true <;>
            simp only [he, if_true, if_false, Bool.false_eq_true,
              Option.some.injEq, Prod.mk.injEq] at h <;> exact h.2.symm
        · simp only [Bool.not_eq_true'] at hd
          simp only [hd, Bool.not_false, if_true, Option.some.injEq,
            Prod.mk.injEq] at h
          exact h.2.symm
    rw [hcalls] at hmem
    simp only [List.mem_singleton, Prod.mk.injEq] at hmem
    rw [hmem.2]
    rfl

/-- C9 witness: a concrete bang input with a trivial oracle. -/
theorem bang_recursive_args_witness :
    cachedPathBang
      { resolve := fun _ _ => .ok "root/u-extracted",
        isDir := fun _ => true, pathExists := fun _ => true }
      { retry := false, autoUpdate := some false, expireDays := some 7 }
      "http://h/a.zip!inner.txt"
      = some (.ok "root/u-extracted/inner.txt",
          [("http://h/a.zip",
            { extract := true, autoUpdate := none, expireDays := none,
              forceDownload := false, forceExtract := false, retry := true })]) ∧
    ({ extract := true, autoUpdate := none, expireDays := none,
       forceDownload := false, forceExtract := false, retry := true } : Args)
      = { extract := true, autoUpdate := none, expireDays := none,
          forceDownload := false, forceExtract := false, retry := true } := by
  refine ⟨by decide, ?_⟩
  exact bang_recursive_args
    { resolve := fun _ _ => .ok "root/u-extracted",
      isDir := fun _ => true, pathExists := fun _ => true }
    { retry := false, autoUpdate := some false, expireDays := some 7 }
    "http://h/a.zip!inner.txt" (.ok "root/u-extracted/inner.txt")
    [("http://h/a.zip",
      { extract := true, autoUpdate := none, expireDays := none,
        forceDownload := false, forceExtract := false, retry := true })]
    (by decide) "http://h/a.zip"
    { extract := true, autoUpdate := none, expireDays := none,
      forceDownload := false, forceExtract := false, retry := true }
    (by simp)

theorem httpRequestLoop_fails (responses : Nat → HttpResponse)
    (ar : Bool)
    (h : ∀ k, statusCodesToRedirect (responses k).status = false
      ∧ ((responses k).status == 200) = false) :
    ∀ i fuel, httpRequestLoop responses ar i (fuel + 1) = .error .ioError := by
  intro i fuel
  induction fuel generalizing i with
  | zero =>
    unfold httpRequestLoop
    simp only []
    rw [(h i).1]
    simp only [Bool.and_false, Bool.false_eq_true, if_false]
    rw [(h i).2]
    simp only [Bool.false_eq_true, if_false]
    by_cases hr : statusCodesToRetry (responses i).status = true
    · rw [if_pos hr]
    · rw [if_neg hr]
  | succ fuel ih =>
    unfold httpRequestLoop
    simp only []
    rw [(h i).1]
    simp only [Bool.and_false, Bool.false_eq_true, if_false]
    rw [(h i).2]
    simp only [Bool.false_eq_true, if_false]
    by_cases hr : statusCodesToRetry (responses i).status = true
    · rw [if_pos hr]
      exact ih (i + 1)
    · rw [if_neg hr]
      exact ih (i + 1)

/-- C10 counterexample: for a vanished URL — every HEAD answers 404 —
`exists()` raises `HTTPException` from the retry loop (404 is not in the
retry set, and the raise is retried then re-raised), so `get_version`
propagates `HTTPException` (`ioError`), not `FileNotFoundError`, and so
does `available_update`. -/
theorem http_get_version_not_found_counterexample :
    httpExists (fun _ => { status := 404, location := none, etag := none })
      = .error .ioError
  ∧ httpGetVersion "http://h/f"
      (fun _ => { status := 404, location := none, etag := none })
      = .error .ioError
  ∧ httpGetVersion "http://h/f"
      (fun _ => { status := 404, location := none, etag := none })
      ≠ .error (.fileNotFound "http://h/f")
  ∧ availableUpdate false
      (.ok (mkEntry "u" "http://h/f" "r/u" 0 (-1) .completed (some "old") true))
      (httpGetVersion "http://h/f"
        (fun _ => { status := 404, location := none, etag := none }))
      = .error .ioError := by
  refine ⟨by decide, by decide, by decide, by decide⟩

/-- C10 amended: on a vanished URL (every HEAD answers 404), `exists()`
itself raises `HTTPException` after exhausting the retry loop — it never
returns false there — so `get_version` and `available_update` propagate
that `HTTPException` (`ioError`) instead of raising `FileNotFoundError`;
`available_update` on such an entry still raises rather than returning a
boolean. `get_version` raises `FileNotFoundError` exactly when `exists()`
actually returns false, which requires a HEAD response that the loop
hands back with a non-200 status (a redirect without a `Location`
header). -/
theorem http_get_version_vanished (url : String) (m : CachedFile)
    (responses : Nat → HttpResponse)
    (h404 : ∀ k, (responses k).status = 404) :
    httpExists responses = .error .ioError
  ∧ httpGetVersion url responses = .error .ioError
  ∧ availableUpdate false (.ok m) (httpGetVersion url responses)
      = .error .ioError
  ∧ (∀ b, availableUpdate false (.ok m) (httpGetVersion url responses)
      ≠ .ok b)
  ∧ (∀ responses2 : Nat → HttpResponse, httpExists responses2 = .ok false →
      httpGetVersion url responses2 = .error (.fileNotFound url)) := by
  have hloop : ∀ i fuel,
      httpRequestLoop responses true i (fuel + 1) = .error .ioError := by
    refine httpRequestLoop_fails responses true (fun k => ?_)
    rw [h404 k]
    exact ⟨by decide, by decide⟩
  have hex : httpExists responses = .error .ioError := by
    unfold httpExists http_head
    rw [hloop 0 4]
  have hgv : httpGetVersion url responses = .error .ioError := by
    unfold httpGetVersion
    rw [hex]
  refine ⟨hex, hgv, ?_, ?_, ?_⟩
  · simp [availableUpdate, hgv]
  · intro b
    simp [availableUpdate, hgv]
  · intro responses2 hex2
    unfold httpGetVersion
    rw [hex2]
    rfl

/-- C10 witness: a constant-404 server makes `available_update` raise
`HTTPException`, and a redirect-without-Location server is the case where
`exists()` returns false and `get_version` raises `FileNotFoundError`. -/
theorem http_get_version_vanished_witness :
    availableUpdate false
      (.ok (mkEntry "u" "http://h/f" "r/u" 0 (-1) .completed (some "old") true))
      (httpGetVersion "http://h/f"
        (fun _ => { status := 404, location := none, etag := none }))
      = .error .ioError
  ∧ httpExists (fun _ => { status := 301, location := none, etag := none })
      = .ok false
  ∧ httpGetVersion "http://h/f"
      (fun _ => { status := 301, location := none, etag := none })
      = .error (.fileNotFound "http://h/f") := by
  refine ⟨?_, by decide, ?_⟩
  · exact (http_get_version_vanished "http://h/f"
      (mkEntry "u" "http://h/f" "r/u" 0 (-1) .completed (some "old") true)
      (fun _ => { status := 404, location := none, etag := none })
      (fun _ => rfl)).2.2.1
  · exact (http_get_version_vanished "http://h/f"
      (mkEntry "u" "http://h/f" "r/u" 0 (-1) .completed (some "old") true)
      (fun _ => { status := 404, location := none, etag := none })
      (fun _ => rfl)).2.2.2.2
      (fun _ => { status := 301, location := none, etag := none })
      (by decide)

end Minato
